import Mathlib

/-!
Verification of the PassVault mobile zero-knowledge vault core.

This file is a shallow embedding, in Lean 4, of the cryptographic core of the
PassVault React Native application: the key-derivation routine, the
envelope (DEK/KEK) codec, the vault codec, the recovery-key codec
(src/vault/crypto.js), the pull side of the sync protocol (src/vault/sync.js),
and the registration flow of the login screen.

External platform primitives (Web Crypto AES-GCM, the Argon2id and PBKDF2
hashes, TextEncoder/TextDecoder, btoa/atob, JSON.stringify/JSON.parse) are not
code of the repository; they are modelled by their documented contracts:
AES-GCM as an ideal authenticated-encryption scheme, the two password hashes
as ideal (collision-free) derivations represented symbolically, and the
text/JSON codecs as executable Lean functions implementing the corresponding
WHATWG / ECMA-404 algorithms restricted to the inputs the repository produces.
All repository-side logic (control flow, validation, slicing, packing,
error collapsing) is translated statement by statement from the source.
-/

namespace PassVault

/-- Byte strings are lists of naturals; a JS Uint8Array element is a byte. -/
abbrev Bytes := List Nat

/-- Every element of the list is a valid byte value. -/
def ValidBytes (l : Bytes) : Prop := ∀ b ∈ l, b < 256

instance (l : Bytes) : Decidable (ValidBytes l) := List.decidableBAll _ l

/-! ## UTF-8 (TextEncoder / TextDecoder)

The repository calls the platform TextEncoder and TextDecoder.  We model
them by the WHATWG UTF-8 encoding and decoding algorithms over byte lists.
The decoder is total: invalid sequences produce U+FFFD replacement
characters, and (as the default TextDecoder does) a leading byte-order mark
EF BB BF is stripped before decoding. -/

/-- U+FFFD, emitted by the decoder for invalid byte sequences. -/
def replacementChar : Char := Char.ofNat 65533

/-- UTF-8 encoding of a single Unicode scalar value (TextEncoder, per char). -/
def utf8EncodeChar (c : Char) : List Nat :=
  if c.toNat < 128 then [c.toNat]
  else if c.toNat < 2048 then [192 + c.toNat / 64, 128 + c.toNat % 64]
  else if c.toNat < 65536 then
    [224 + c.toNat / 4096, 128 + c.toNat / 64 % 64, 128 + c.toNat % 64]
  else
    [240 + c.toNat / 262144, 128 + c.toNat / 4096 % 64, 128 + c.toNat / 64 % 64,
      128 + c.toNat % 64]

/-- TextEncoder: UTF-8 encoding of a string. -/
def utf8Encode (s : String) : Bytes := s.data.flatMap utf8EncodeChar

/-- Is a byte a UTF-8 continuation byte (10xxxxxx)? -/
def isContByte (b : Nat) : Prop := 128 ≤ b ∧ b < 192

instance (b : Nat) : Decidable (isContByte b) := by unfold isContByte; infer_instance

mutual

/-- UTF-8 decoding of a byte list, total, with U+FFFD on invalid input. -/
def utf8Decode : List Nat → List Char
  | [] => []
  | b :: rest =>
    if b < 128 then Char.ofNat b :: utf8Decode rest
    else if b < 192 then replacementChar :: utf8Decode rest
    else if b < 224 then utf8Cont1 b rest
    else if b < 240 then utf8Cont2 b rest
    else utf8Cont3 b rest
termination_by l => 2 * l.length + 1

/-- Decode the single continuation byte of a 2-byte UTF-8 sequence. -/
def utf8Cont1 : Nat → List Nat → List Char
  | _, [] => [replacementChar]
  | b, b1 :: r1 =>
    if isContByte b1 then Char.ofNat ((b - 192) * 64 + (b1 - 128)) :: utf8Decode r1
    else replacementChar :: utf8Decode (b1 :: r1)
termination_by _ l => 2 * l.length + 2

/-- Decode the two continuation bytes of a 3-byte UTF-8 sequence. -/
def utf8Cont2 : Nat → List Nat → List Char
  | _, [] => [replacementChar]
  | _, [_] => [replacementChar, replacementChar]
  | b, b1 :: b2 :: r2 =>
    if isContByte b1 ∧ isContByte b2 then
      Char.ofNat ((b - 224) * 4096 + (b1 - 128) * 64 + (b2 - 128)) :: utf8Decode r2
    else replacementChar :: utf8Decode (b1 :: b2 :: r2)
termination_by _ l => 2 * l.length + 2

/-- Decode the three continuation bytes of a 4-byte UTF-8 sequence. -/
def utf8Cont3 : Nat → List Nat → List Char
  | _, [] => [replacementChar]
  | _, [_] => [replacementChar, replacementChar]
  | _, [_, _] => [replacementChar, replacementChar, replacementChar]
  | b, b1 :: b2 :: b3 :: r3 =>
    if isContByte b1 ∧ isContByte b2 ∧ isContByte b3 then
      Char.ofNat ((b - 240) * 262144 + (b1 - 128) * 4096 + (b2 - 128) * 64 + (b3 - 128))
        :: utf8Decode r3
    else replacementChar :: utf8Decode (b1 :: b2 :: b3 :: r3)
termination_by _ l => 2 * l.length + 2

end

/-- The default TextDecoder removes a leading UTF-8 byte-order mark. -/
def stripBOM (l : Bytes) : Bytes :=
  match l with
  | a :: b :: c :: rest => if a = 239 ∧ b = 187 ∧ c = 191 then rest else a :: b :: c :: rest
  | l => l

/-- TextDecoder().decode on a byte list: BOM stripping followed by UTF-8 decoding. -/
def textDecode (l : Bytes) : String := String.mk (utf8Decode (stripBOM l))

theorem string_mk_data (s : String) : String.mk s.data = s := rfl

theorem char_toNat_lt (c : Char) : c.toNat < 1114112 := by
  rcases c.valid with h | h
  · have := UInt32.toNat_lt_of_lt (n := c.val) (m := 55296) (by decide) h
    simp only [Char.toNat]; omega
  · have := UInt32.toNat_lt_of_lt (n := c.val) (m := 1114112) (by decide) h.2
    simp only [Char.toNat]; omega

/-- Each byte of an encoded character is a byte. -/
theorem utf8EncodeChar_valid (c : Char) : ValidBytes (utf8EncodeChar c) := by
  have hlt := char_toNat_lt c
  intro b hb
  unfold utf8EncodeChar at hb
  by_cases h1 : c.toNat < 128
  · simp only [if_pos h1, List.mem_singleton] at hb; omega
  · by_cases h2 : c.toNat < 2048
    · simp only [if_neg h1, if_pos h2, List.mem_cons, List.mem_singleton, List.not_mem_nil,
        or_false] at hb
      rcases hb with h | h <;> omega
    · by_cases h3 : c.toNat < 65536
      · simp only [if_neg h1, if_neg h2, if_pos h3, List.mem_cons, List.not_mem_nil,
          or_false] at hb
        rcases hb with h | h | h <;> omega
      · simp only [if_neg h1, if_neg h2, if_neg h3, List.mem_cons, List.not_mem_nil,
          or_false] at hb
        rcases hb with h | h | h | h <;> omega

theorem utf8Encode_valid (s : String) : ValidBytes (utf8Encode s) := by
  unfold utf8Encode
  intro b hb
  rw [List.mem_flatMap] at hb
  rcases hb with ⟨c, _, hb⟩
  exact utf8EncodeChar_valid c b hb

/-- Decoding an encoded character at the head of a stream recovers the
character and leaves the rest of the stream to be decoded. -/
theorem utf8Decode_encodeChar (c : Char) (rest : List Nat) :
    utf8Decode (utf8EncodeChar c ++ rest) = c :: utf8Decode rest := by
  have hv : Char.ofNat c.toNat = c := Char.ofNat_toNat c
  unfold utf8EncodeChar
  by_cases h1 : c.toNat < 128
  · simp only [if_pos h1, List.cons_append, List.nil_append]
    rw [utf8Decode, if_pos h1, hv]
  · by_cases h2 : c.toNat < 2048
    · simp only [if_neg h1, if_pos h2, List.cons_append, List.nil_append]
      rw [utf8Decode, if_neg (by omega : ¬ (192 + c.toNat / 64 < 128)),
        if_neg (by omega : ¬ (192 + c.toNat / 64 < 192)),
        if_pos (by omega : 192 + c.toNat / 64 < 224),
        utf8Cont1, if_pos (by unfold isContByte; omega)]
      have : (192 + c.toNat / 64 - 192) * 64 + (128 + c.toNat % 64 - 128) = c.toNat := by omega
      rw [this, hv]
    · by_cases h3 : c.toNat < 65536
      · simp only [if_neg h1, if_neg h2, if_pos h3, List.cons_append, List.nil_append]
        rw [utf8Decode, if_neg (by omega : ¬ (224 + c.toNat / 4096 < 128)),
          if_neg (by omega : ¬ (224 + c.toNat / 4096 < 192)),
          if_neg (by omega : ¬ (224 + c.toNat / 4096 < 224)),
          if_pos (by omega : 224 + c.toNat / 4096 < 240),
          utf8Cont2, if_pos (by constructor <;> (unfold isContByte; omega))]
        have : (224 + c.toNat / 4096 - 224) * 4096 + (128 + c.toNat / 64 % 64 - 128) * 64 +
            (128 + c.toNat % 64 - 128) = c.toNat := by omega
        rw [this, hv]
      · simp only [if_neg h1, if_neg h2, if_neg h3, List.cons_append, List.nil_append]
        rw [utf8Decode, if_neg (by omega : ¬ (240 + c.toNat / 262144 < 128)),
          if_neg (by omega : ¬ (240 + c.toNat / 262144 < 192)),
          if_neg (by omega : ¬ (240 + c.toNat / 262144 < 224)),
          if_neg (by omega : ¬ (240 + c.toNat / 262144 < 240)),
          utf8Cont3, if_pos (by refine ⟨?_, ?_, ?_⟩ <;> (unfold isContByte; omega))]
        have : (240 + c.toNat / 262144 - 240) * 262144 + (128 + c.toNat / 4096 % 64 - 128) * 4096 +
            (128 + c.toNat / 64 % 64 - 128) * 64 + (128 + c.toNat % 64 - 128) = c.toNat := by omega
        rw [this, hv]

theorem utf8Decode_nil : utf8Decode [] = [] := by rw [utf8Decode]

theorem utf8Decode_encode_list (cs : List Char) (rest : List Nat) :
    utf8Decode (cs.flatMap utf8EncodeChar ++ rest) = cs ++ utf8Decode rest := by
  induction cs with
  | nil => simp
  | cons c cs ih =>
    rw [List.flatMap_cons, List.append_assoc, utf8Decode_encodeChar, ih]
    rfl

/-- UTF-8 round trip on whole strings (no byte-order-mark stripping). -/
theorem utf8Decode_encode (s : String) : utf8Decode (utf8Encode s) = s.data := by
  have h := utf8Decode_encode_list s.data []
  rw [List.append_nil, utf8Decode_nil, List.append_nil] at h
  exact h

/-- The UTF-8 encoder is injective. -/
theorem utf8Encode_inj {s t : String} (h : utf8Encode s = utf8Encode t) : s = t := by
  have hd : s.data = t.data := by
    rw [← utf8Decode_encode s, ← utf8Decode_encode t, h]
  cases s; cases t; exact congrArg String.mk hd

/-! ## Base64 (btoa / atob)

The repository uses the platform btoa and atob on binary strings whose char
codes are bytes.  We model btoa as base64 encoding of a byte list and atob as
the forgiving-base64 decode (padding or an unpadded final chunk of two or
three characters accepted; a chunk of length one, a stray padding character,
or a character outside the alphabet is an error).  Whitespace tolerance of
the platform atob is not modelled; no repository input contains whitespace. -/

/-- The base64 alphabet: index to character. -/
def b64CharOf (n : Nat) : Char :=
  if n < 26 then Char.ofNat (65 + n)
  else if n < 52 then Char.ofNat (97 + (n - 26))
  else if n < 62 then Char.ofNat (48 + (n - 52))
  else if n = 62 then Char.ofNat 43
  else Char.ofNat 47

/-- The base64 padding character. -/
def padChar : Char := Char.ofNat 61

/-- The base64 alphabet: character to index, none if not in the alphabet. -/
def b64ValOf (c : Char) : Option Nat :=
  if 65 ≤ c.toNat ∧ c.toNat ≤ 90 then some (c.toNat - 65)
  else if 97 ≤ c.toNat ∧ c.toNat ≤ 122 then some (26 + (c.toNat - 97))
  else if 48 ≤ c.toNat ∧ c.toNat ≤ 57 then some (52 + (c.toNat - 48))
  else if c.toNat = 43 then some 62
  else if c.toNat = 47 then some 63
  else none

/-- btoa on a byte list (the source applies btoa to String.fromCharCode of
the bytes, which is the same thing). -/
def btoa : List Nat → List Char
  | [] => []
  | [b1] => [b64CharOf (b1 / 4), b64CharOf (b1 % 4 * 16), padChar, padChar]
  | [b1, b2] =>
    [b64CharOf (b1 / 4), b64CharOf (b1 % 4 * 16 + b2 / 16), b64CharOf (b2 % 16 * 4), padChar]
  | b1 :: b2 :: b3 :: rest =>
    b64CharOf (b1 / 4) :: b64CharOf (b1 % 4 * 16 + b2 / 16) :: b64CharOf (b2 % 16 * 4 + b3 / 64)
      :: b64CharOf (b3 % 64) :: btoa rest

/-- atob: forgiving-base64 decoding, none on invalid input. -/
def atob : List Char → Option (List Nat)
  | [] => some []
  | [c1, c2] =>
    match b64ValOf c1, b64ValOf c2 with
    | some v1, some v2 => some [v1 * 4 + v2 / 16]
    | _, _ => none
  | [c1, c2, c3] =>
    match b64ValOf c1, b64ValOf c2, b64ValOf c3 with
    | some v1, some v2, some v3 => some [v1 * 4 + v2 / 16, v2 % 16 * 16 + v3 / 4]
    | _, _, _ => none
  | [c1, c2, c3, c4] =>
    if c4 = padChar then
      if c3 = padChar then
        match b64ValOf c1, b64ValOf c2 with
        | some v1, some v2 => some [v1 * 4 + v2 / 16]
        | _, _ => none
      else
        match b64ValOf c1, b64ValOf c2, b64ValOf c3 with
        | some v1, some v2, some v3 => some [v1 * 4 + v2 / 16, v2 % 16 * 16 + v3 / 4]
        | _, _, _ => none
    else
      match b64ValOf c1, b64ValOf c2, b64ValOf c3, b64ValOf c4 with
      | some v1, some v2, some v3, some v4 =>
        some [v1 * 4 + v2 / 16, v2 % 16 * 16 + v3 / 4, v3 % 4 * 64 + v4]
      | _, _, _, _ => none
  | c1 :: c2 :: c3 :: c4 :: c5 :: rest =>
    match b64ValOf c1, b64ValOf c2, b64ValOf c3, b64ValOf c4, atob (c5 :: rest) with
    | some v1, some v2, some v3, some v4, some bs =>
      some ((v1 * 4 + v2 / 16) :: (v2 % 16 * 16 + v3 / 4) :: (v3 % 4 * 64 + v4) :: bs)
    | _, _, _, _, _ => none
  | _ => none

theorem b64ValOf_b64CharOf : ∀ n < 64, b64ValOf (b64CharOf n) = some n := by decide

theorem b64CharOf_ne_padChar : ∀ n < 64, b64CharOf n ≠ padChar := by decide

theorem btoa_cons_ne_nil (b : Nat) (t : List Nat) : btoa (b :: t) ≠ [] := by
  match t with
  | [] => rw [btoa]; simp
  | [b2] => rw [btoa]; simp
  | b2 :: b3 :: rest => rw [btoa]; simp

/-- Base64 round trip: atob inverts btoa on byte lists. -/
theorem atob_btoa (l : List Nat) (h : ValidBytes l) : atob (btoa l) = some l := by
  induction l using btoa.induct with
  | case1 => rw [btoa, atob]
  | case2 b1 =>
    have hb1 : b1 < 256 := h b1 (by simp)
    rw [btoa, atob, if_pos rfl, if_pos rfl,
      b64ValOf_b64CharOf (b1 / 4) (by omega),
      b64ValOf_b64CharOf (b1 % 4 * 16) (by omega)]
    have : b1 / 4 * 4 + b1 % 4 * 16 / 16 = b1 := by omega
    simp only [this]
  | case3 b1 b2 =>
    have hb1 : b1 < 256 := h b1 (by simp)
    have hb2 : b2 < 256 := h b2 (by simp)
    rw [btoa, atob, if_pos rfl,
      if_neg (b64CharOf_ne_padChar (b2 % 16 * 4) (by omega)),
      b64ValOf_b64CharOf (b1 / 4) (by omega),
      b64ValOf_b64CharOf (b1 % 4 * 16 + b2 / 16) (by omega),
      b64ValOf_b64CharOf (b2 % 16 * 4) (by omega)]
    have e1 : b1 / 4 * 4 + (b1 % 4 * 16 + b2 / 16) / 16 = b1 := by omega
    have e2 : (b1 % 4 * 16 + b2 / 16) % 16 * 16 + b2 % 16 * 4 / 4 = b2 := by omega
    simp only [e1, e2]
  | case4 b1 b2 b3 rest ih =>
    have hb1 : b1 < 256 := h b1 (by simp)
    have hb2 : b2 < 256 := h b2 (by simp)
    have hb3 : b3 < 256 := h b3 (by simp)
    have hrest : ValidBytes rest := by
      intro b hb; exact h b (by simp [hb])
    have e1 : b1 / 4 * 4 + (b1 % 4 * 16 + b2 / 16) / 16 = b1 := by omega
    have e2 : (b1 % 4 * 16 + b2 / 16) % 16 * 16 + (b2 % 16 * 4 + b3 / 64) / 4 = b2 := by omega
    have e3 : (b2 % 16 * 4 + b3 / 64) % 4 * 64 + b3 % 64 = b3 := by omega
    rw [btoa]
    match hr : rest with
    | [] =>
      rw [btoa, atob, if_neg (b64CharOf_ne_padChar (b3 % 64) (by omega)),
        b64ValOf_b64CharOf (b1 / 4) (by omega),
        b64ValOf_b64CharOf (b1 % 4 * 16 + b2 / 16) (by omega),
        b64ValOf_b64CharOf (b2 % 16 * 4 + b3 / 64) (by omega),
        b64ValOf_b64CharOf (b3 % 64) (by omega)]
      simp only [e1, e2, e3]
    | r1 :: rtail =>
      have ih' := ih (hr ▸ hrest)
      rcases hx : btoa (r1 :: rtail) with _ | ⟨x, xs⟩
      · exact absurd hx (btoa_cons_ne_nil r1 rtail)
      · rw [hx] at ih'
        rw [atob,
          b64ValOf_b64CharOf (b1 / 4) (by omega),
          b64ValOf_b64CharOf (b1 % 4 * 16 + b2 / 16) (by omega),
          b64ValOf_b64CharOf (b2 % 16 * 4 + b3 / 64) (by omega),
          b64ValOf_b64CharOf (b3 % 64) (by omega), ih']
        simp only [e1, e2, e3]

/-! ## JavaScript array slicing

Uint8Array.prototype.slice(start, end) clamps its arguments: a negative
index counts from the end of the array, and out-of-range indices clamp to
the array bounds; it never throws. -/

/-- Resolve a JS relative index against a length. -/
def jsIndex (len : Nat) (i : Int) : Nat :=
  if i < 0 then ((len : Int) + i).toNat else min i.toNat len

/-- Uint8Array.prototype.slice with JS clamping semantics. -/
def jsSlice (l : List Nat) (start fin : Int) : List Nat :=
  (l.take (jsIndex l.length fin)).drop (jsIndex l.length start)

theorem jsIndex_ofNat (len n : Nat) : jsIndex len (n : Int) = min n len := by
  unfold jsIndex
  rw [if_neg (by omega)]
  simp

/-- Slicing with in-range nonnegative bounds is take-then-drop. -/
theorem jsSlice_nat (l : List Nat) (a b : Nat) (ha : a ≤ l.length) (hb : b ≤ l.length) :
    jsSlice l (a : Int) (b : Int) = (l.take b).drop a := by
  unfold jsSlice
  rw [jsIndex_ofNat, jsIndex_ofNat, min_eq_left hb, min_eq_left ha]

/-! ## Key material and the AES-GCM model

Web Crypto CryptoKey objects hold key material opaquely.  Keys in the
repository are either imported from raw random bytes (the DEK) or produced
by a password hash (the KEK).  The two password hashes are external
primitives; we represent their outputs symbolically, so that two derivations
agree exactly when their inputs and parameters agree (the ideal,
collision-free reading of the primitives).  AES-GCM is modelled as an ideal
authenticated-encryption scheme: decryption succeeds exactly for the key and
nonce the ciphertext was produced with, and returns the original plaintext. -/

/-- Symbolic key material. -/
inductive KeyMaterial where
  /-- A key imported from raw bytes (generateKey / importKey raw). -/
  | raw (bytes : Bytes)
  /-- Output of argon2id(password, salt, parameters) from noble-hashes. -/
  | argon2id (password : String) (salt : Bytes) (t m p dkLen : Nat)
  /-- Output of PBKDF2 via crypto.subtle.deriveBits. -/
  | pbkdf2 (password : String) (salt : Bytes) (iterations : Nat) (hash : String) (bits : Nat)
  deriving DecidableEq, Repr

/-- Model of a Web Crypto CryptoKey handle. -/
structure CryptoKey where
  material : KeyMaterial
  algorithm : String
  length : Nat
  extractable : Bool
  usages : List String
  deriving DecidableEq, Repr

/-- An AES-GCM ciphertext (ciphertext plus authentication tag), ideal model:
the ciphertext determines the key, nonce and plaintext it was built from. -/
structure GCMCiphertext where
  keyMaterial : KeyMaterial
  iv : Bytes
  plaintext : Bytes
  deriving DecidableEq, Repr

/-- crypto.subtle.encrypt with AES-GCM (ideal model). -/
def aesGcmEncrypt (key : KeyMaterial) (iv : Bytes) (pt : Bytes) : GCMCiphertext :=
  ⟨key, iv, pt⟩

/-- crypto.subtle.decrypt with AES-GCM (ideal model): tag verification
succeeds exactly when key and nonce match the ones used to encrypt. -/
def aesGcmDecrypt (key : KeyMaterial) (iv : Bytes) (ct : GCMCiphertext) : Option Bytes :=
  if ct.keyMaterial = key ∧ ct.iv = iv then some ct.plaintext else none

theorem aesGcmDecrypt_encrypt (key : KeyMaterial) (iv pt : Bytes) :
    aesGcmDecrypt key iv (aesGcmEncrypt key iv pt) = some pt := by
  unfold aesGcmDecrypt aesGcmEncrypt
  rw [if_pos ⟨rfl, rfl⟩]

theorem aesGcmDecrypt_wrong_key (key key' : KeyMaterial) (iv iv' pt : Bytes)
    (h : key ≠ key') : aesGcmDecrypt key' iv' (aesGcmEncrypt key iv pt) = none := by
  unfold aesGcmDecrypt aesGcmEncrypt
  rw [if_neg]
  intro hc
  exact h hc.1

/-! ## Key derivation (crypto.js, deriveKey)

The source tries Argon2id (t=2, m=16384 KiB, p=1, dkLen=32) and imports the
result as an extractable AES-GCM-256 key.  If anything in the try block
throws (the primitive being unavailable at runtime), the catch block logs a
console.error warning and derives the key with PBKDF2 (600000 iterations,
SHA-256, 256 bits) instead.  There is no validation of the salt length or
of password emptiness anywhere in the function, and no error is ever
propagated to the caller.  Whether the try block throws is a property of the
external runtime; it enters the model as the argonOk flag. -/

/-- The DerivationError of the spec.  The source never constructs it; it is
carried in the return type so the error behaviour demanded by the spec is
expressible. -/
inductive DerivationError where
  | invalidInput
  deriving DecidableEq, Repr

/-- Result of deriveKey: the key, whether the PBKDF2 fallback ran, and the
console warnings emitted. -/
structure DeriveOutcome where
  key : CryptoKey
  usedFallback : Bool
  warnings : List String
  deriving DecidableEq, Repr

/-- The console.error text logged when the fallback path runs. -/
def fallbackWarning : String := "Argon2id failed, falling back to PBKDF2 (INSECURE):"

/-- deriveKey from src/vault/crypto.js.  argonOk says whether the Argon2id
call succeeds at runtime.  The password-byte zeroization side effect has no
observable value and is not modelled. -/
def deriveKey (argonOk : Bool) (password : String) (salt : Bytes) :
    Except DerivationError DeriveOutcome :=
  if argonOk then
    .ok ⟨⟨.argon2id password salt 2 16384 1 32, "AES-GCM", 256, true,
      ["encrypt", "decrypt", "wrapKey", "unwrapKey"]⟩, false, []⟩
  else
    .ok ⟨⟨.pbkdf2 password salt 600000 "SHA-256" 256, "AES-GCM", 256, true,
      ["encrypt", "decrypt", "wrapKey", "unwrapKey"]⟩, true, [fallbackWarning]⟩

/-- generateDEK: a 256-bit random AES-GCM key.  The random source is
external; its output enters as the randomBytes argument. -/
def generateDEK (randomBytes : Bytes) : CryptoKey :=
  ⟨.raw randomBytes, "AES-GCM", 256, true, ["encrypt", "decrypt"]⟩

/-- crypto.subtle.exportKey raw.  Only raw-imported keys are exported by
the flows under verification; a derived key exports its symbolic bytes,
which none of the theorems rely on. -/
def exportRawKey (k : CryptoKey) : Bytes :=
  match k.material with
  | .raw bytes => bytes
  | _ => []

/-- crypto.subtle.importKey raw as done in decryptDEK. -/
def importAesGcmKey (bytes : Bytes) : CryptoKey :=
  ⟨.raw bytes, "AES-GCM", 256, true, ["encrypt", "decrypt"]⟩

/-- Web Crypto AEAD failure (OperationError on tag mismatch); the
AuthenticationError of the spec. -/
inductive AuthenticationError where
  | tagMismatch
  deriving DecidableEq, Repr

/-- Result of encryptDEK: wrapped DEK and the nonce used. -/
structure EncryptedDEKResult where
  encryptedDEK : GCMCiphertext
  iv : Bytes
  deriving DecidableEq, Repr

/-- encryptDEK from src/vault/crypto.js: export the DEK to raw bytes and
AEAD-encrypt them under the master key with a fresh 12-byte nonce (the
nonce comes from the external random source and enters as iv). -/
def encryptDEK (dek : CryptoKey) (masterKey : CryptoKey) (iv : Bytes) : EncryptedDEKResult :=
  ⟨aesGcmEncrypt masterKey.material iv (exportRawKey dek), iv⟩

/-- decryptDEK from src/vault/crypto.js: AEAD-decrypt and re-import the raw
DEK bytes.  A tag failure surfaces as the Web Crypto rejection. -/
def decryptDEK (encryptedDEK : GCMCiphertext) (iv : Bytes) (masterKey : CryptoKey) :
    Except AuthenticationError CryptoKey :=
  match aesGcmDecrypt masterKey.material iv encryptedDEK with
  | some bytes => .ok (importAesGcmKey bytes)
  | none => .error .tagMismatch

/-- generateSalt returns 32 random bytes from the external random source;
the output of the random source enters as the argument. -/
def generateSalt (randomBytes : Bytes) : Bytes := randomBytes

/-! ## Recovery-key codec (crypto.js, generateRecoveryKey / parseRecoveryKey) -/

theorem string_data_mk (l : List Char) : (String.mk l).data = l := rfl

/-- The triple returned by parseRecoveryKey. -/
structure ParsedRecoveryKey where
  email : String
  password : String
  salt : Bytes
  deriving DecidableEq, Repr

/-- The single error thrown by parseRecoveryKey
(Error with message Invalid recovery key format). -/
inductive RecoveryKeyError where
  | invalidFormat
  deriving DecidableEq, Repr

/-- generateRecoveryKey from src/vault/crypto.js: a big-endian 16-bit email
byte-length prefix (setUint16 stores the length mod 2^16), then email bytes,
password bytes and the salt, all base64 encoded. -/
def generateRecoveryKey (email masterPassword : String) (salt : Bytes) : String :=
  let emailBytes := utf8Encode email
  let passwordBytes := utf8Encode masterPassword
  String.mk (btoa ((emailBytes.length / 256 % 256) :: (emailBytes.length % 256)
    :: ((emailBytes ++ passwordBytes) ++ salt)))

/-- parseRecoveryKey from src/vault/crypto.js.  Everything is inside one
try/catch mapping any thrown error (atob failure, or the DataView RangeError
when the decoded buffer holds fewer than 2 bytes) to the single
invalid-format error; the three slices use the clamping slice semantics and
so never throw. -/
def parseRecoveryKey (recoveryKey : String) : Except RecoveryKeyError ParsedRecoveryKey :=
  match atob recoveryKey.data with
  | none => .error .invalidFormat
  | some bytes =>
    match bytes with
    | b0 :: b1 :: _ =>
      let emailLength := b0 * 256 + b1
      .ok ⟨textDecode (jsSlice bytes 2 (2 + (emailLength : Int))),
        textDecode (jsSlice bytes (2 + (emailLength : Int)) ((bytes.length : Int) - 32)),
        jsSlice bytes ((bytes.length : Int) - 32) (bytes.length : Int)⟩
    | _ => .error .invalidFormat

theorem stripBOM_head_ne (l : Bytes) (h : ∀ x, l.head? = some x → x ≠ 239) :
    stripBOM l = l := by
  match l with
  | [] => rfl
  | [a] => rfl
  | [a, b] => rfl
  | a :: b :: c :: r =>
    have ha : a ≠ 239 := h a rfl
    simp only [stripBOM]
    rw [if_neg (fun hc => ha hc.1)]

theorem stripBOM_encodeChar_append (c : Char) (r : Bytes) (h : c ≠ Char.ofNat 65279) :
    stripBOM (utf8EncodeChar c ++ r) = utf8EncodeChar c ++ r := by
  have hv : c.toNat ≠ 65279 := by
    intro hc
    apply h
    rw [← Char.ofNat_toNat c, hc]
  unfold utf8EncodeChar
  by_cases h1 : c.toNat < 128
  · simp only [if_pos h1, List.cons_append, List.nil_append]
    exact stripBOM_head_ne _ (by intro x hx; simp at hx; omega)
  · by_cases h2 : c.toNat < 2048
    · simp only [if_neg h1, if_pos h2, List.cons_append, List.nil_append]
      exact stripBOM_head_ne _ (by intro x hx; simp at hx; omega)
    · by_cases h3 : c.toNat < 65536
      · simp only [if_neg h1, if_neg h2, if_pos h3, List.cons_append, List.nil_append]
        simp only [stripBOM]
        rw [if_neg (by omega)]
      · simp only [if_neg h1, if_neg h2, if_neg h3, List.cons_append, List.nil_append]
        exact stripBOM_head_ne _ (by intro x hx; simp at hx; omega)

/-- BOM stripping is the identity on the encoding of a string that does not
begin with U+FEFF. -/
theorem stripBOM_utf8Encode (s : String) (h : s.data.head? ≠ some (Char.ofNat 65279)) :
    stripBOM (utf8Encode s) = utf8Encode s := by
  unfold utf8Encode
  match hd : s.data with
  | [] => rfl
  | c :: cs =>
    have hc : c ≠ Char.ofNat 65279 := by
      rw [hd] at h
      simpa using h
    rw [List.flatMap_cons]
    exact stripBOM_encodeChar_append c _ hc

/-- textDecode inverts utf8Encode on strings not beginning with U+FEFF. -/
theorem textDecode_utf8Encode (s : String) (h : s.data.head? ≠ some (Char.ofNat 65279)) :
    textDecode (utf8Encode s) = s := by
  unfold textDecode
  rw [stripBOM_utf8Encode s h, utf8Decode_encode, string_mk_data]

/-- Core recovery-key parse-of-generate computation: parsing always
recovers the exact byte segments; the email and password components are
whatever TextDecoder makes of the original UTF-8 bytes. -/
theorem parseRecoveryKey_generateRecoveryKey_core (email password : String) (salt : Bytes)
    (hsv : ValidBytes salt) (hs32 : salt.length = 32)
    (hel : (utf8Encode email).length < 65536) :
    parseRecoveryKey (generateRecoveryKey email password salt) =
      .ok ⟨textDecode (utf8Encode email), textDecode (utf8Encode password), salt⟩ := by
  unfold generateRecoveryKey parseRecoveryKey
  have hC : ValidBytes ((utf8Encode email).length / 256 % 256 :: (utf8Encode email).length % 256
      :: ((utf8Encode email ++ utf8Encode password) ++ salt)) := by
    intro b hb
    simp only [List.mem_cons, List.mem_append] at hb
    rcases hb with h | h | (h | h) | h
    · omega
    · omega
    · exact utf8Encode_valid email b h
    · exact utf8Encode_valid password b h
    · exact hsv b h
  rw [string_data_mk, atob_btoa _ hC]
  simp only []
  have hEL : (utf8Encode email).length / 256 % 256 * 256 + (utf8Encode email).length % 256 =
      (utf8Encode email).length := by omega
  rw [hEL]
  have hlen : ((utf8Encode email).length / 256 % 256 :: (utf8Encode email).length % 256
      :: ((utf8Encode email ++ utf8Encode password) ++ salt)).length =
      2 + (utf8Encode email).length + (utf8Encode password).length + 32 := by
    simp [hs32]; omega
  have c1 : ((2 : Int) + ((utf8Encode email).length : Int)) =
      (((2 + (utf8Encode email).length : Nat)) : Int) := by push_cast; ring
  have c2 : (2 : Int) = (((2 : Nat)) : Int) := by norm_num
  have c3 : ((((utf8Encode email).length / 256 % 256 :: (utf8Encode email).length % 256
      :: ((utf8Encode email ++ utf8Encode password) ++ salt)).length : Int) - 32) =
      (((2 + (utf8Encode email).length + (utf8Encode password).length : Nat)) : Int) := by
    rw [hlen]; push_cast; ring
  have c4 : ((((utf8Encode email).length / 256 % 256 :: (utf8Encode email).length % 256
      :: ((utf8Encode email ++ utf8Encode password) ++ salt)).length : Int)) =
      (((((utf8Encode email).length / 256 % 256 :: (utf8Encode email).length % 256
      :: ((utf8Encode email ++ utf8Encode password) ++ salt)).length : Nat)) : Int) := rfl
  rw [c1, c2, c3, c4,
    jsSlice_nat _ _ _ (by omega) (by omega),
    jsSlice_nat _ _ _ (by omega) (by omega),
    jsSlice_nat _ _ _ (by omega) (le_refl _)]
  rw [List.drop_take, List.drop_take, List.take_length]
  have d2 : ((utf8Encode email).length / 256 % 256 :: (utf8Encode email).length % 256
      :: ((utf8Encode email ++ utf8Encode password) ++ salt)).drop 2 =
      (utf8Encode email ++ utf8Encode password) ++ salt := rfl
  have dE : ((utf8Encode email).length / 256 % 256 :: (utf8Encode email).length % 256
      :: ((utf8Encode email ++ utf8Encode password) ++ salt)).drop
        (2 + (utf8Encode email).length) =
      utf8Encode password ++ salt := by
    rw [← List.drop_drop, d2, List.append_assoc, List.drop_left]
  have dEP : ((utf8Encode email).length / 256 % 256 :: (utf8Encode email).length % 256
      :: ((utf8Encode email ++ utf8Encode password) ++ salt)).drop
        (2 + (utf8Encode email).length + (utf8Encode password).length) =
      salt := by
    rw [Nat.add_assoc, ← List.drop_drop, d2, List.drop_left' (by simp)]
  rw [d2, dE, dEP]
  have tE : (2 + (utf8Encode email).length - 2) = (utf8Encode email).length := by omega
  have tP : (2 + (utf8Encode email).length + (utf8Encode password).length -
      (2 + (utf8Encode email).length)) = (utf8Encode password).length := by omega
  rw [tE, tP, List.append_assoc, List.take_left, List.take_left]

/-- Recovery-key round trip, for salts of length 32 and email/password not
beginning with U+FEFF, with the email byte length representable in 16 bits. -/
theorem parseRecoveryKey_generateRecoveryKey (email password : String) (salt : Bytes)
    (hsv : ValidBytes salt) (hs32 : salt.length = 32)
    (hel : (utf8Encode email).length < 65536)
    (hbe : email.data.head? ≠ some (Char.ofNat 65279))
    (hbp : password.data.head? ≠ some (Char.ofNat 65279)) :
    parseRecoveryKey (generateRecoveryKey email password salt) =
      .ok ⟨email, password, salt⟩ := by
  rw [parseRecoveryKey_generateRecoveryKey_core email password salt hsv hs32 hel,
    textDecode_utf8Encode email hbe, textDecode_utf8Encode password hbp]

/-! ## JSON (JSON.stringify / JSON.parse)

The vault codec serializes with JSON.stringify and parses with JSON.parse.
Both are external platform functions; we model the value space by an
inductive Json type (numbers restricted to the naturals the repository
stores, e.g. Date.now() timestamps and version counters, which JS prints in
plain decimal), stringify by the ECMA-404 serialization JS produces (no
insignificant whitespace, standard escape shorthands, lowercase hex), and
parse by a recursive-descent parser for exactly that grammar.  JSON.parse
whitespace tolerance is not modelled; stringify emits none. -/

inductive Json where
  | null
  | bool (b : Bool)
  | num (n : Nat)
  | str (s : String)
  | arr (elems : List Json)
  | obj (fields : List (String × Json))

def quoteChar : Char := Char.ofNat 34
def backslashChar : Char := Char.ofNat 92
def lbrackChar : Char := Char.ofNat 91
def rbrackChar : Char := Char.ofNat 93
def lbraceChar : Char := Char.ofNat 123
def rbraceChar : Char := Char.ofNat 125
def commaChar : Char := Char.ofNat 44
def colonChar : Char := Char.ofNat 58
def zeroChar : Char := Char.ofNat 48

def digitChar (n : Nat) : Char := Char.ofNat (48 + n)

def hexDigitChar (n : Nat) : Char :=
  if n < 10 then Char.ofNat (48 + n) else Char.ofNat (87 + n)

def isDigitChar (c : Char) : Prop := 48 ≤ c.toNat ∧ c.toNat ≤ 57

instance (c : Char) : Decidable (isDigitChar c) := by unfold isDigitChar; infer_instance

/-- JSON.stringify escaping of one string character: quote and backslash,
the five control shorthands, a u-escape for other control characters. -/
def escapeChar (c : Char) : List Char :=
  if c = quoteChar then [backslashChar, quoteChar]
  else if c = backslashChar then [backslashChar, backslashChar]
  else if c.toNat = 8 then [backslashChar, Char.ofNat 98]
  else if c.toNat = 9 then [backslashChar, Char.ofNat 116]
  else if c.toNat = 10 then [backslashChar, Char.ofNat 110]
  else if c.toNat = 12 then [backslashChar, Char.ofNat 102]
  else if c.toNat = 13 then [backslashChar, Char.ofNat 114]
  else if c.toNat < 32 then
    [backslashChar, Char.ofNat 117, hexDigitChar (c.toNat / 4096 % 16),
      hexDigitChar (c.toNat / 256 % 16), hexDigitChar (c.toNat / 16 % 16),
      hexDigitChar (c.toNat % 16)]
  else [c]

/-- The JSON serialization of a string, quotes included. -/
def stringifyString (s : String) : List Char :=
  quoteChar :: (s.data.flatMap escapeChar ++ [quoteChar])

/-- Decimal digits of a natural, as JS String(n) prints it. -/
def natToDigits (n : Nat) : List Char :=
  if n = 0 then [zeroChar] else (Nat.digits 10 n).reverse.map digitChar

mutual

/-- JSON.stringify (no replacer, no spacing), as JS produces it. -/
def stringify : Json → List Char
  | .null => [Char.ofNat 110, Char.ofNat 117, Char.ofNat 108, Char.ofNat 108]
  | .bool true => [Char.ofNat 116, Char.ofNat 114, Char.ofNat 117, Char.ofNat 101]
  | .bool false => [Char.ofNat 102, Char.ofNat 97, Char.ofNat 108, Char.ofNat 115, Char.ofNat 101]
  | .num n => natToDigits n
  | .str s => stringifyString s
  | .arr [] => [lbrackChar, rbrackChar]
  | .arr (x :: xs) => lbrackChar :: (stringifyItems x xs ++ [rbrackChar])
  | .obj [] => [lbraceChar, rbraceChar]
  | .obj (f :: fs) => lbraceChar :: (stringifyFields f fs ++ [rbraceChar])
termination_by j => sizeOf j

/-- Comma-separated serialization of a nonempty array body. -/
def stringifyItems : Json → List Json → List Char
  | x, [] => stringify x
  | x, y :: ys => stringify x ++ commaChar :: stringifyItems y ys
termination_by x xs => sizeOf x + sizeOf xs

/-- Comma-separated serialization of a nonempty object body. -/
def stringifyFields : (String × Json) → List (String × Json) → List Char
  | (k, v), [] => stringifyString k ++ colonChar :: stringify v
  | (k, v), g :: gs =>
    (stringifyString k ++ colonChar :: stringify v) ++ commaChar :: stringifyFields g gs
termination_by f fs => sizeOf f + sizeOf fs

end

mutual

/-- Structural size used as fuel bound for the parser. -/
def jsonSize : Json → Nat
  | .null => 1
  | .bool _ => 1
  | .num _ => 1
  | .str _ => 1
  | .arr [] => 1
  | .arr (x :: xs) => itemsSize x xs + 1
  | .obj [] => 1
  | .obj (f :: fs) => fieldsSize f fs + 1
termination_by j => sizeOf j

def itemsSize : Json → List Json → Nat
  | x, [] => jsonSize x + 1
  | x, y :: ys => jsonSize x + itemsSize y ys + 1
termination_by x xs => sizeOf x + sizeOf xs

def fieldsSize : (String × Json) → List (String × Json) → Nat
  | (k, v), [] => jsonSize v + 1
  | (k, v), g :: gs => jsonSize v + fieldsSize g gs + 1
termination_by f fs => sizeOf f + sizeOf fs

end

/-- Value of a hexadecimal digit character. -/
def hexVal (c : Char) : Option Nat :=
  if 48 ≤ c.toNat ∧ c.toNat ≤ 57 then some (c.toNat - 48)
  else if 97 ≤ c.toNat ∧ c.toNat ≤ 102 then some (c.toNat - 87)
  else if 65 ≤ c.toNat ∧ c.toNat ≤ 70 then some (c.toNat - 55)
  else none

/-- Prepend a character to the parsed part of a string-parser result. -/
def consMap (c : Char) : Option (List Char × List Char) → Option (List Char × List Char)
  | some (l, r) => some (c :: l, r)
  | none => none

mutual

/-- Parse the body of a JSON string after the opening quote, up to and
including the closing quote; returns the parsed characters and the rest. -/
def parseStringChars : List Char → Option (List Char × List Char)
  | [] => none
  | c :: rest =>
    if c = quoteChar then some ([], rest)
    else if c = backslashChar then parseEscape rest
    else consMap c (parseStringChars rest)
termination_by l => 2 * l.length + 1

/-- Parse one escape sequence after a backslash. -/
def parseEscape : List Char → Option (List Char × List Char)
  | [] => none
  | e :: r2 =>
    if e = quoteChar then consMap quoteChar (parseStringChars r2)
    else if e = backslashChar then consMap backslashChar (parseStringChars r2)
    else if e = Char.ofNat 47 then consMap (Char.ofNat 47) (parseStringChars r2)
    else if e = Char.ofNat 98 then consMap (Char.ofNat 8) (parseStringChars r2)
    else if e = Char.ofNat 116 then consMap (Char.ofNat 9) (parseStringChars r2)
    else if e = Char.ofNat 110 then consMap (Char.ofNat 10) (parseStringChars r2)
    else if e = Char.ofNat 102 then consMap (Char.ofNat 12) (parseStringChars r2)
    else if e = Char.ofNat 114 then consMap (Char.ofNat 13) (parseStringChars r2)
    else if e = Char.ofNat 117 then parseHex4 r2
    else none
termination_by l => 2 * l.length + 2

/-- Parse the four hex digits of a u-escape. -/
def parseHex4 : List Char → Option (List Char × List Char)
  | h1 :: h2 :: h3 :: h4 :: r3 =>
    match hexVal h1, hexVal h2, hexVal h3, hexVal h4 with
    | some v1, some v2, some v3, some v4 =>
      consMap (Char.ofNat (v1 * 4096 + v2 * 256 + v3 * 16 + v4)) (parseStringChars r3)
    | _, _, _, _ => none
  | _ => none
termination_by l => 2 * l.length + 1

end

/-- Accumulate decimal digit characters into a natural. -/
def charsToNat (cs : List Char) : Nat :=
  cs.foldl (fun a c => a * 10 + (c.toNat - 48)) 0

/-- Match a three-character literal tail (ull / rue). -/
def parseLit3 (a b c : Char) (v : Json) : List Char → Option (Json × List Char)
  | x :: y :: z :: r => if x = a ∧ y = b ∧ z = c then some (v, r) else none
  | _ => none

/-- Match a four-character literal tail (alse). -/
def parseLit4 (a b c d : Char) (v : Json) : List Char → Option (Json × List Char)
  | x :: y :: z :: w :: r => if x = a ∧ y = b ∧ z = c ∧ w = d then some (v, r) else none
  | _ => none

/-- Wrap a parsed string body as a Json string value. -/
def parseStrBranch (cs : List Char) : Option (Json × List Char) :=
  match parseStringChars cs with
  | some (chars, r) => some (.str (String.mk chars), r)
  | none => none

mutual

/-- Parse one JSON value (fuel-indexed recursive descent). -/
def parseValue : Nat → List Char → Option (Json × List Char)
  | 0, _ => none
  | _ + 1, [] => none
  | fuel + 1, c :: cs =>
    if c = quoteChar then parseStrBranch cs
    else if c = lbrackChar then parseArrBranch fuel cs
    else if c = lbraceChar then parseObjBranch fuel cs
    else if isDigitChar c then
      some (.num (charsToNat ((c :: cs).takeWhile (fun x => decide (isDigitChar x)))),
        (c :: cs).dropWhile (fun x => decide (isDigitChar x)))
    else if c = Char.ofNat 110 then
      parseLit3 (Char.ofNat 117) (Char.ofNat 108) (Char.ofNat 108) .null cs
    else if c = Char.ofNat 116 then
      parseLit3 (Char.ofNat 114) (Char.ofNat 117) (Char.ofNat 101) (.bool true) cs
    else if c = Char.ofNat 102 then
      parseLit4 (Char.ofNat 97) (Char.ofNat 108) (Char.ofNat 115) (Char.ofNat 101)
        (.bool false) cs
    else none

/-- Parse what follows an opening bracket. -/
def parseArrBranch : Nat → List Char → Option (Json × List Char)
  | _, [] => none
  | fuel, d :: r2 =>
    if d = rbrackChar then some (.arr [], r2)
    else
      match parseItems fuel (d :: r2) with
      | some (xs, r) => some (.arr xs, r)
      | none => none

/-- Parse what follows an opening brace. -/
def parseObjBranch : Nat → List Char → Option (Json × List Char)
  | _, [] => none
  | fuel, d :: r2 =>
    if d = rbraceChar then some (.obj [], r2)
    else
      match parseFields fuel (d :: r2) with
      | some (fs, r) => some (.obj fs, r)
      | none => none

/-- Parse a nonempty comma-separated item list up to and including the
closing bracket. -/
def parseItems : Nat → List Char → Option (List Json × List Char)
  | 0, _ => none
  | fuel + 1, cs =>
    match parseValue fuel cs with
    | some (x, r) =>
      match r with
      | [] => none
      | d :: r2 =>
        if d = commaChar then
          match parseItems fuel r2 with
          | some (xs, r3) => some (x :: xs, r3)
          | none => none
        else if d = rbrackChar then some ([x], r2)
        else none
    | none => none

/-- Parse a nonempty comma-separated field list up to and including the
closing brace. -/
def parseFields : Nat → List Char → Option (List (String × Json) × List Char)
  | 0, _ => none
  | fuel + 1, cs =>
    match cs with
    | [] => none
    | q :: r0 =>
      if q = quoteChar then
        match parseStringChars r0 with
        | some (kchars, r1) =>
          match r1 with
          | [] => none
          | col :: r2 =>
            if col = colonChar then
              match parseValue fuel r2 with
              | some (v, r3) =>
                match r3 with
                | [] => none
                | d :: r4 =>
                  if d = commaChar then
                    match parseFields fuel r4 with
                    | some (fs, r5) => some ((String.mk kchars, v) :: fs, r5)
                    | none => none
                  else if d = rbraceChar then some ([(String.mk kchars, v)], r4)
                  else none
              | none => none
            else none
        | none => none
      else none

end

/-- JSON.parse: a full-input parse of one value. -/
def jsonParse (s : String) : Option Json :=
  match parseValue (s.data.length + 1) s.data with
  | some (j, []) => some j
  | _ => none

/-! ### Round-trip lemmas for the JSON codec -/

theorem hexVal_hexDigitChar : ∀ n < 16, hexVal (hexDigitChar n) = some n := by decide

theorem digitChar_toNat : ∀ d < 10, (digitChar d).toNat = 48 + d := by decide

theorem digitChar_isDigit : ∀ d < 10, isDigitChar (digitChar d) := by decide

/-- String-body round trip: parsing the escaped characters followed by the
closing quote recovers the characters and the rest of the input. -/
theorem parseStringChars_escape (s : List Char) (rest : List Char) :
    parseStringChars (s.flatMap escapeChar ++ (quoteChar :: rest)) = some (s, rest) := by
  induction s with
  | nil =>
    rw [List.flatMap_nil, List.nil_append, parseStringChars, if_pos rfl]
  | cons c cs ih =>
    rw [List.flatMap_cons, List.append_assoc]
    by_cases hq : c = quoteChar
    · have he : escapeChar c = [backslashChar, quoteChar] := by
        rw [escapeChar, if_pos hq]
      rw [he, List.cons_append, List.cons_append, List.nil_append,
        parseStringChars, if_neg (by decide), if_pos rfl,
        parseEscape, if_pos rfl, ih]
      rw [hq]; rfl
    · by_cases hb : c = backslashChar
      · have he : escapeChar c = [backslashChar, backslashChar] := by
          rw [escapeChar, if_neg hq, if_pos hb]
        rw [he, List.cons_append, List.cons_append, List.nil_append,
          parseStringChars, if_neg (by decide), if_pos rfl,
          parseEscape, if_neg (by decide), if_pos rfl, ih]
        rw [hb]; rfl
      · by_cases h8 : c.toNat = 8
        · have he : escapeChar c = [backslashChar, Char.ofNat 98] := by
            rw [escapeChar, if_neg hq, if_neg hb, if_pos h8]
          rw [he, List.cons_append, List.cons_append, List.nil_append,
            parseStringChars, if_neg (by decide), if_pos rfl,
            parseEscape, if_neg (by decide), if_neg (by decide), if_neg (by decide),
            if_pos rfl, ih]
          have hc : Char.ofNat 8 = c := by rw [← h8, Char.ofNat_toNat]
          rw [hc]; rfl
        · by_cases h9 : c.toNat = 9
          · have he : escapeChar c = [backslashChar, Char.ofNat 116] := by
              rw [escapeChar, if_neg hq, if_neg hb, if_neg h8, if_pos h9]
            rw [he, List.cons_append, List.cons_append, List.nil_append,
              parseStringChars, if_neg (by decide), if_pos rfl,
              parseEscape, if_neg (by decide), if_neg (by decide), if_neg (by decide),
              if_neg (by decide), if_pos rfl, ih]
            have hc : Char.ofNat 9 = c := by rw [← h9, Char.ofNat_toNat]
            rw [hc]; rfl
          · by_cases h10 : c.toNat = 10
            · have he : escapeChar c = [backslashChar, Char.ofNat 110] := by
                rw [escapeChar, if_neg hq, if_neg hb, if_neg h8, if_neg h9, if_pos h10]
              rw [he, List.cons_append, List.cons_append, List.nil_append,
                parseStringChars, if_neg (by decide), if_pos rfl,
                parseEscape, if_neg (by decide), if_neg (by decide), if_neg (by decide),
                if_neg (by decide), if_neg (by decide), if_pos rfl, ih]
              have hc : Char.ofNat 10 = c := by rw [← h10, Char.ofNat_toNat]
              rw [hc]; rfl
            · by_cases h12 : c.toNat = 12
              · have he : escapeChar c = [backslashChar, Char.ofNat 102] := by
                  rw [escapeChar, if_neg hq, if_neg hb, if_neg h8, if_neg h9, if_neg h10,
                    if_pos h12]
                rw [he, List.cons_append, List.cons_append, List.nil_append,
                  parseStringChars, if_neg (by decide), if_pos rfl,
                  parseEscape, if_neg (by decide), if_neg (by decide), if_neg (by decide),
                  if_neg (by decide), if_neg (by decide), if_neg (by decide), if_pos rfl, ih]
                have hc : Char.ofNat 12 = c := by rw [← h12, Char.ofNat_toNat]
                rw [hc]; rfl
              · by_cases h13 : c.toNat = 13
                · have he : escapeChar c = [backslashChar, Char.ofNat 114] := by
                    rw [escapeChar, if_neg hq, if_neg hb, if_neg h8, if_neg h9, if_neg h10,
                      if_neg h12, if_pos h13]
                  rw [he, List.cons_append, List.cons_append, List.nil_append,
                    parseStringChars, if_neg (by decide), if_pos rfl,
                    parseEscape, if_neg (by decide), if_neg (by decide), if_neg (by decide),
                    if_neg (by decide), if_neg (by decide), if_neg (by decide),
                    if_neg (by decide), if_pos rfl, ih]
                  have hc : Char.ofNat 13 = c := by rw [← h13, Char.ofNat_toNat]
                  rw [hc]; rfl
                · by_cases h32 : c.toNat < 32
                  · have he : escapeChar c = [backslashChar, Char.ofNat 117,
                        hexDigitChar (c.toNat / 4096 % 16), hexDigitChar (c.toNat / 256 % 16),
                        hexDigitChar (c.toNat / 16 % 16), hexDigitChar (c.toNat % 16)] := by
                      rw [escapeChar, if_neg hq, if_neg hb, if_neg h8, if_neg h9, if_neg h10,
                        if_neg h12, if_neg h13, if_pos h32]
                    rw [he]
                    simp only [List.cons_append, List.nil_append]
                    rw [parseStringChars, if_neg (by decide), if_pos rfl,
                      parseEscape, if_neg (by decide), if_neg (by decide), if_neg (by decide),
                      if_neg (by decide), if_neg (by decide), if_neg (by decide),
                      if_neg (by decide), if_neg (by decide), if_pos rfl,
                      parseHex4,
                      hexVal_hexDigitChar (c.toNat / 4096 % 16) (by omega),
                      hexVal_hexDigitChar (c.toNat / 256 % 16) (by omega),
                      hexVal_hexDigitChar (c.toNat / 16 % 16) (by omega),
                      hexVal_hexDigitChar (c.toNat % 16) (by omega)]
                    simp only []
                    rw [ih]
                    have hval : c.toNat / 4096 % 16 * 4096 + c.toNat / 256 % 16 * 256 +
                        c.toNat / 16 % 16 * 16 + c.toNat % 16 = c.toNat := by omega
                    rw [hval, Char.ofNat_toNat]
                    rfl
                  · have he : escapeChar c = [c] := by
                      rw [escapeChar, if_neg hq, if_neg hb, if_neg h8, if_neg h9, if_neg h10,
                        if_neg h12, if_neg h13, if_neg h32]
                    rw [he, List.cons_append, List.nil_append,
                      parseStringChars, if_neg hq, if_neg hb, ih]
                    rfl

/-- Folding decimal digit characters over an accumulator. -/
theorem foldl_digitChars (ds : List Nat) (h : ∀ d ∈ ds, d < 10) (acc : Nat) :
    List.foldl (fun a c => a * 10 + (c.toNat - 48)) acc (ds.reverse.map digitChar) =
      acc * 10 ^ ds.length + Nat.ofDigits 10 ds := by
  induction ds generalizing acc with
  | nil => simp [Nat.ofDigits]
  | cons d ds ih =>
    have hd : d < 10 := h d (by simp)
    have hds : ∀ x ∈ ds, x < 10 := fun x hx => h x (by simp [hx])
    rw [List.reverse_cons, List.map_append, List.foldl_append, ih hds acc]
    simp only [List.map_cons, List.map_nil, List.foldl_cons, List.foldl_nil]
    rw [digitChar_toNat d hd, Nat.ofDigits_cons, List.length_cons, pow_succ]
    have : 48 + d - 48 = d := by omega
    rw [this]
    ring

/-- Decimal round trip. -/
theorem charsToNat_natToDigits (n : Nat) : charsToNat (natToDigits n) = n := by
  unfold natToDigits charsToNat
  by_cases h0 : n = 0
  · rw [if_pos h0, h0]; decide
  · rw [if_neg h0,
      foldl_digitChars (Nat.digits 10 n) (fun d hd => Nat.digits_lt_base (by norm_num) hd) 0,
      Nat.ofDigits_digits, zero_mul, zero_add]

theorem natToDigits_ne_nil (n : Nat) : natToDigits n ≠ [] := by
  unfold natToDigits
  by_cases h0 : n = 0
  · rw [if_pos h0]; simp
  · rw [if_neg h0]
    simp [Nat.digits_ne_nil_iff_ne_zero.mpr h0]

theorem natToDigits_all_digit (n : Nat) : ∀ c ∈ natToDigits n, isDigitChar c := by
  unfold natToDigits
  by_cases h0 : n = 0
  · rw [if_pos h0]; intro c hc; simp at hc; rw [hc]; decide
  · rw [if_neg h0]
    intro c hc
    rw [List.mem_map] at hc
    rcases hc with ⟨d, hd, rfl⟩
    exact digitChar_isDigit d (Nat.digits_lt_base (by norm_num) (List.mem_reverse.mp hd))

/-- The next input character is not a decimal digit (so a digit run ends). -/
def headNotDigit : List Char → Prop
  | [] => True
  | c :: _ => ¬ isDigitChar c

theorem takeWhile_digit_append (xs ys : List Char) (hx : ∀ x ∈ xs, isDigitChar x)
    (hy : headNotDigit ys) :
    (xs ++ ys).takeWhile (fun x => decide (isDigitChar x)) = xs ∧
    (xs ++ ys).dropWhile (fun x => decide (isDigitChar x)) = ys := by
  induction xs with
  | nil =>
    simp only [List.nil_append]
    cases ys with
    | nil => simp
    | cons y ys =>
      unfold headNotDigit at hy
      rw [List.takeWhile_cons, List.dropWhile_cons]
      simp [hy]
  | cons x xs ih =>
    have hx0 : isDigitChar x := hx x (by simp)
    have hxs : ∀ a ∈ xs, isDigitChar a := fun a ha => hx a (by simp [ha])
    obtain ⟨ht, hd⟩ := ih hxs
    rw [List.cons_append, List.takeWhile_cons, List.dropWhile_cons]
    simp [hx0, ht, hd]

theorem isDigitChar_ne (c : Char) (h : isDigitChar c) :
    c ≠ quoteChar ∧ c ≠ lbrackChar ∧ c ≠ lbraceChar ∧ c ≠ Char.ofNat 110 ∧
    c ≠ Char.ofNat 116 ∧ c ≠ Char.ofNat 102 := by
  refine ⟨?_, ?_, ?_, ?_, ?_, ?_⟩ <;>
    (intro heq; rw [heq] at h; revert h; decide)

/-- The first character of a serialized value is never a closing delimiter,
a comma, or U+FEFF. -/
theorem stringify_shape (j : Json) : ∃ hd tl, stringify j = hd :: tl ∧
    hd ≠ rbrackChar ∧ hd ≠ rbraceChar ∧ hd ≠ commaChar ∧ hd ≠ Char.ofNat 65279 := by
  cases j with
  | null => exact ⟨_, _, by rw [stringify], by decide, by decide, by decide, by decide⟩
  | bool b =>
    cases b with
    | true => exact ⟨_, _, by rw [stringify], by decide, by decide, by decide, by decide⟩
    | false => exact ⟨_, _, by rw [stringify], by decide, by decide, by decide, by decide⟩
  | num n =>
    obtain ⟨hd, tl, hnd⟩ := List.exists_cons_of_ne_nil (natToDigits_ne_nil n)
    have hdig : isDigitChar hd := natToDigits_all_digit n hd (by rw [hnd]; simp)
    refine ⟨hd, tl, by rw [stringify, hnd], ?_, ?_, ?_, ?_⟩ <;>
      (intro heq; rw [heq] at hdig; revert hdig; decide)
  | str s =>
    exact ⟨quoteChar, _, by rw [stringify, stringifyString], by decide, by decide, by decide,
      by decide⟩
  | arr elems =>
    cases elems with
    | nil => exact ⟨_, _, by rw [stringify], by decide, by decide, by decide, by decide⟩
    | cons x xs => exact ⟨_, _, by rw [stringify], by decide, by decide, by decide, by decide⟩
  | obj fields =>
    cases fields with
    | nil => exact ⟨_, _, by rw [stringify], by decide, by decide, by decide, by decide⟩
    | cons f fs => exact ⟨_, _, by rw [stringify], by decide, by decide, by decide, by decide⟩

theorem stringifyItems_shape (x : Json) (xs : List Json) : ∃ hd tl,
    stringifyItems x xs = hd :: tl ∧ hd ≠ rbrackChar ∧ hd ≠ rbraceChar ∧ hd ≠ commaChar := by
  obtain ⟨hd, tl, hstr, h1, h2, h3, _⟩ := stringify_shape x
  cases xs with
  | nil => exact ⟨hd, tl, by rw [stringifyItems, hstr], h1, h2, h3⟩
  | cons y ys =>
    exact ⟨hd, tl ++ commaChar :: stringifyItems y ys,
      by rw [stringifyItems, hstr, List.cons_append], h1, h2, h3⟩

theorem stringifyFields_shape (f : String × Json) (fs : List (String × Json)) : ∃ tl,
    stringifyFields f fs = quoteChar :: tl := by
  obtain ⟨k, v⟩ := f
  cases fs with
  | nil =>
    exact ⟨_, by rw [stringifyFields, stringifyString, List.cons_append]⟩
  | cons g gs =>
    exact ⟨_, by rw [stringifyFields, stringifyString, List.cons_append, List.cons_append]⟩

theorem jsonSize_pos (j : Json) : 0 < jsonSize j := by
  cases j with
  | null => rw [jsonSize]; omega
  | bool b => rw [jsonSize]; omega
  | num n => rw [jsonSize]; omega
  | str s => rw [jsonSize]; omega
  | arr elems => cases elems <;> (rw [jsonSize]; omega)
  | obj fields => cases fields <;> (rw [jsonSize]; omega)

theorem itemsSize_pos (x : Json) (xs : List Json) : 0 < itemsSize x xs := by
  cases xs <;> (rw [itemsSize]; omega)

theorem fieldsSize_pos (f : String × Json) (fs : List (String × Json)) :
    0 < fieldsSize f fs := by
  obtain ⟨k, v⟩ := f
  cases fs <;> (rw [fieldsSize]; omega)

set_option maxHeartbeats 1600000 in
/-- Fuel-indexed JSON round trip: with fuel at least the structural size,
parsing a serialized value (followed by any non-digit-leading rest) returns
the value and the rest; similarly for array bodies up to a closing bracket
and object bodies up to a closing brace. -/
theorem parse_stringify_fuel : ∀ fuel : Nat,
    (∀ (j : Json) (rest : List Char), jsonSize j ≤ fuel → headNotDigit rest →
      parseValue fuel (stringify j ++ rest) = some (j, rest)) ∧
    (∀ (x : Json) (xs : List Json) (rest : List Char), itemsSize x xs ≤ fuel →
      parseItems fuel (stringifyItems x xs ++ (rbrackChar :: rest)) = some (x :: xs, rest)) ∧
    (∀ (f : String × Json) (fs : List (String × Json)) (rest : List Char),
      fieldsSize f fs ≤ fuel →
      parseFields fuel (stringifyFields f fs ++ (rbraceChar :: rest)) = some (f :: fs, rest)) := by
  intro fuel
  induction fuel with
  | zero =>
    refine ⟨?_, ?_, ?_⟩
    · intro j rest hsz _
      exact absurd hsz (by have := jsonSize_pos j; omega)
    · intro x xs rest hsz
      exact absurd hsz (by have := itemsSize_pos x xs; omega)
    · intro f fs rest hsz
      exact absurd hsz (by have := fieldsSize_pos f fs; omega)
  | succ fuel IH =>
    obtain ⟨IHv, IHi, IHf⟩ := IH
    refine ⟨?_, ?_, ?_⟩
    · intro j rest hsz hrest
      cases j with
      | null =>
        rw [stringify]
        simp only [List.cons_append, List.nil_append]
        rw [parseValue, if_neg (by decide), if_neg (by decide), if_neg (by decide),
          if_neg (by decide), if_pos rfl, parseLit3, if_pos ⟨rfl, rfl, rfl⟩]
      | bool b =>
        cases b with
        | true =>
          rw [stringify]
          simp only [List.cons_append, List.nil_append]
          rw [parseValue, if_neg (by decide), if_neg (by decide), if_neg (by decide),
            if_neg (by decide), if_neg (by decide), if_pos rfl, parseLit3,
            if_pos ⟨rfl, rfl, rfl⟩]
        | false =>
          rw [stringify]
          simp only [List.cons_append, List.nil_append]
          rw [parseValue, if_neg (by decide), if_neg (by decide), if_neg (by decide),
            if_neg (by decide), if_neg (by decide), if_neg (by decide), if_pos rfl, parseLit4,
            if_pos ⟨rfl, rfl, rfl, rfl⟩]
      | num n =>
        obtain ⟨hd, tl, hnd⟩ := List.exists_cons_of_ne_nil (natToDigits_ne_nil n)
        have hdig : isDigitChar hd := natToDigits_all_digit n hd (by rw [hnd]; simp)
        obtain ⟨hq, hlb, hlc, _, _, _⟩ := isDigitChar_ne hd hdig
        rw [stringify, hnd, List.cons_append, parseValue, if_neg hq, if_neg hlb, if_neg hlc,
          if_pos hdig, ← List.cons_append, ← hnd]
        obtain ⟨htk, hdr⟩ :=
          takeWhile_digit_append (natToDigits n) rest (natToDigits_all_digit n) hrest
        rw [htk, hdr, charsToNat_natToDigits]
      | str s =>
        rw [stringify, stringifyString, List.cons_append, parseValue, if_pos rfl,
          List.append_assoc, List.singleton_append, parseStrBranch, parseStringChars_escape]
      | arr elems =>
        cases elems with
        | nil =>
          rw [stringify]
          simp only [List.cons_append, List.nil_append]
          rw [parseValue, if_neg (by decide), if_pos rfl, parseArrBranch, if_pos rfl]
        | cons x xs =>
          have hsz' : itemsSize x xs ≤ fuel := by rw [jsonSize] at hsz; omega
          obtain ⟨hd, tl, hit, h1, _, _⟩ := stringifyItems_shape x xs
          rw [stringify, List.cons_append, parseValue, if_neg (by decide), if_pos rfl,
            List.append_assoc, List.singleton_append, hit, List.cons_append,
            parseArrBranch, if_neg h1, ← List.cons_append, ← hit, IHi x xs rest hsz']
      | obj fields =>
        cases fields with
        | nil =>
          rw [stringify]
          simp only [List.cons_append, List.nil_append]
          rw [parseValue, if_neg (by decide), if_neg (by decide), if_pos rfl,
            parseObjBranch, if_pos rfl]
        | cons f fs =>
          have hsz' : fieldsSize f fs ≤ fuel := by rw [jsonSize] at hsz; omega
          obtain ⟨tl, hfl⟩ := stringifyFields_shape f fs
          rw [stringify, List.cons_append, parseValue, if_neg (by decide), if_neg (by decide),
            if_pos rfl, List.append_assoc, List.singleton_append, hfl, List.cons_append,
            parseObjBranch, if_neg (by decide), ← List.cons_append, ← hfl,
            IHf f fs rest hsz']
    · intro x xs rest hsz
      cases xs with
      | nil =>
        have hszx : jsonSize x ≤ fuel := by rw [itemsSize] at hsz; omega
        rw [stringifyItems, parseItems,
          IHv x (rbrackChar :: rest) hszx (by show ¬ isDigitChar rbrackChar; decide)]
        simp only []
        simp
        exact fun h => absurd h (by decide)
      | cons y ys =>
        have hszx : jsonSize x ≤ fuel := by rw [itemsSize] at hsz; omega
        have hszy : itemsSize y ys ≤ fuel := by rw [itemsSize] at hsz; omega
        rw [stringifyItems]
        simp only [List.cons_append, List.append_assoc, List.nil_append]
        rw [parseItems,
          IHv x _ hszx (by show ¬ isDigitChar commaChar; decide)]
        simp only []
        rw [IHi y ys rest hszy]
        simp
    · intro f fs rest hsz
      obtain ⟨k, v⟩ := f
      cases fs with
      | nil =>
        have hszv : jsonSize v ≤ fuel := by rw [fieldsSize] at hsz; omega
        rw [stringifyFields, stringifyString]
        simp only [List.cons_append, List.append_assoc, List.singleton_append, List.nil_append]
        rw [parseFields, if_pos rfl, parseStringChars_escape]
        simp only []
        rw [IHv v _ hszv (by show ¬ isDigitChar rbraceChar; decide)]
        simp only []
        simp
        exact fun h => absurd h (by decide)
      | cons g gs =>
        have hszv : jsonSize v ≤ fuel := by rw [fieldsSize] at hsz; omega
        have hszg : fieldsSize g gs ≤ fuel := by rw [fieldsSize] at hsz; omega
        rw [stringifyFields, stringifyString]
        simp only [List.cons_append, List.append_assoc, List.singleton_append, List.nil_append]
        rw [parseFields, if_pos rfl, parseStringChars_escape]
        simp only []
        rw [IHv v _ hszv (by show ¬ isDigitChar commaChar; decide)]
        simp only []
        rw [IHf g gs rest hszg]
        simp

mutual

theorem jsonSize_le_stringify : (j : Json) → jsonSize j ≤ (stringify j).length
  | .null => by rw [jsonSize, stringify]; simp
  | .bool true => by rw [jsonSize, stringify]; simp
  | .bool false => by rw [jsonSize, stringify]; simp
  | .num n => by
    have h := List.length_pos.mpr (natToDigits_ne_nil n)
    rw [jsonSize, stringify]; omega
  | .str s => by rw [jsonSize, stringify, stringifyString]; simp
  | .arr [] => by rw [jsonSize, stringify]; simp
  | .arr (x :: xs) => by
    have h := itemsSize_le_stringify x xs
    rw [jsonSize, stringify]
    simp only [List.length_cons, List.length_append]
    omega
  | .obj [] => by rw [jsonSize, stringify]; simp
  | .obj (f :: fs) => by
    have h := fieldsSize_le_stringify f fs
    rw [jsonSize, stringify]
    simp only [List.length_cons, List.length_append]
    omega
termination_by j => sizeOf j

theorem itemsSize_le_stringify : (x : Json) → (xs : List Json) →
    itemsSize x xs ≤ (stringifyItems x xs).length + 1
  | x, [] => by
    have h := jsonSize_le_stringify x
    rw [itemsSize, stringifyItems]; omega
  | x, y :: ys => by
    have h1 := jsonSize_le_stringify x
    have h2 := itemsSize_le_stringify y ys
    rw [itemsSize, stringifyItems]
    simp only [List.length_append, List.length_cons]
    omega
termination_by x xs => sizeOf x + sizeOf xs

theorem fieldsSize_le_stringify : (f : String × Json) → (fs : List (String × Json)) →
    fieldsSize f fs ≤ (stringifyFields f fs).length + 1
  | (k, v), [] => by
    have h := jsonSize_le_stringify v
    rw [fieldsSize, stringifyFields]
    simp only [List.length_append, List.length_cons]
    omega
  | (k, v), g :: gs => by
    have h1 := jsonSize_le_stringify v
    have h2 := fieldsSize_le_stringify g gs
    rw [fieldsSize, stringifyFields]
    simp only [List.length_append, List.length_cons]
    omega
termination_by f fs => sizeOf f + sizeOf fs

end

/-- JSON.parse inverts JSON.stringify on the modelled value space. -/
theorem jsonParse_stringify (j : Json) : jsonParse (String.mk (stringify j)) = some j := by
  unfold jsonParse
  rw [string_data_mk]
  have hb : jsonSize j ≤ (stringify j).length + 1 :=
    le_trans (jsonSize_le_stringify j) (by omega)
  have h := (parse_stringify_fuel ((stringify j).length + 1)).1 j [] hb (by trivial)
  rw [List.append_nil] at h
  rw [h]

/-- The first character of a serialized value is never U+FEFF, so the
encode-then-decode of serialized JSON is the identity. -/
theorem stringify_head_ne_bom (j : Json) :
    (String.mk (stringify j)).data.head? ≠ some (Char.ofNat 65279) := by
  obtain ⟨hd, tl, hstr, _, _, _, h4⟩ := stringify_shape j
  rw [string_data_mk, hstr]
  simp only [List.head?_cons, ne_eq, Option.some.injEq]
  exact h4

/-! ## Vault codec (crypto.js, encryptVault / decryptVault) -/

/-- The single Error thrown by decryptVault, for both failure causes. -/
inductive VaultError where
  | failedToDecrypt
  deriving DecidableEq, Repr

/-- The message of the one error decryptVault can throw. -/
def VaultError.message : VaultError → String
  | .failedToDecrypt => "Failed to decrypt vault. Wrong password or corrupted data."

/-- Result of encryptVault: ciphertext and the nonce used. -/
structure EncryptedVaultResult where
  encryptedVault : GCMCiphertext
  iv : Bytes
  deriving DecidableEq, Repr

/-- encryptVault from src/vault/crypto.js: JSON.stringify the data, UTF-8
encode it, AEAD-encrypt under the DEK with a fresh 12-byte nonce (from the
external random source, entering as iv). -/
def encryptVault (data : Json) (dek : CryptoKey) (iv : Bytes) : EncryptedVaultResult :=
  ⟨aesGcmEncrypt dek.material iv (utf8Encode (String.mk (stringify data))), iv⟩

/-- decryptVault from src/vault/crypto.js: AEAD-decrypt, UTF-8 decode,
JSON.parse — with the whole body in one try/catch that maps every failure
(tag mismatch and JSON parse error alike) to the single failedToDecrypt
error. -/
def decryptVault (encryptedVault : GCMCiphertext) (iv : Bytes) (dek : CryptoKey) :
    Except VaultError Json :=
  match aesGcmDecrypt dek.material iv encryptedVault with
  | none => .error .failedToDecrypt
  | some bytes =>
    match jsonParse (textDecode bytes) with
    | some j => .ok j
    | none => .error .failedToDecrypt

/-- Vault round trip at the Json level. -/
theorem decryptVault_encryptVault (data : Json) (dek : CryptoKey) (iv : Bytes) :
    decryptVault (encryptVault data dek iv).encryptedVault iv dek = .ok data := by
  unfold decryptVault encryptVault
  simp only []
  rw [aesGcmDecrypt_encrypt]
  simp only []
  rw [textDecode_utf8Encode _ (stringify_head_ne_bom data), jsonParse_stringify]

/-! ## Vault records

The record shape of the vault screen (spec section 4.3): an identifier, a
display name, a username, a secret, a URL, a note, and a creation
timestamp.  JSON.stringify of such an object emits the fields in insertion
order. -/

structure VaultRecord where
  id : String
  name : String
  username : String
  secret : String
  url : String
  note : String
  createdAt : Nat
  deriving DecidableEq, Repr

/-- The JS object a record becomes before JSON.stringify. -/
def recordJson (r : VaultRecord) : Json :=
  .obj [("id", .str r.id), ("name", .str r.name), ("username", .str r.username),
    ("secret", .str r.secret), ("url", .str r.url), ("note", .str r.note),
    ("createdAt", .num r.createdAt)]

/-- The JS array a record collection becomes before JSON.stringify. -/
def recordsJson (rs : List VaultRecord) : Json := .arr (rs.map recordJson)

/-- Read a record back out of its JSON form. -/
def recordOfJson : Json → Option VaultRecord
  | .obj [("id", .str i), ("name", .str n), ("username", .str u), ("secret", .str sec),
      ("url", .str url), ("note", .str note), ("createdAt", .num t)] =>
    some ⟨i, n, u, sec, url, note, t⟩
  | _ => none

/-- Read a record collection back out of its JSON form. -/
def recordsOfJson : Json → Option (List VaultRecord)
  | .arr xs => recordsOfJsonList xs
  | _ => none
where
  recordsOfJsonList : List Json → Option (List VaultRecord)
    | [] => some []
    | x :: xs =>
      match recordOfJson x, recordsOfJsonList xs with
      | some r, some rs => some (r :: rs)
      | _, _ => none

theorem recordOfJson_recordJson (r : VaultRecord) : recordOfJson (recordJson r) = some r := rfl

theorem recordsOfJson_recordsJson (rs : List VaultRecord) :
    recordsOfJson (recordsJson rs) = some rs := by
  rw [recordsJson, recordsOfJson]
  induction rs with
  | nil => rfl
  | cons r rs ih =>
    rw [List.map_cons, recordsOfJson.recordsOfJsonList, recordOfJson_recordJson, ih]

/-! ## Sync pull (sync.js, pullFromRemote)

The pull path of the useSync hook: fetch the server blob and marker,
compare with the locally stored marker, and on a strictly newer server marker
normalize the blob (PostgreSQL Buffer, JSON string, or object) and store
blob and marker; otherwise leave local state untouched.  API transport and
React state are external; the server response enters as arguments and
AsyncStorage becomes the explicit local state. -/

/-- The three wire shapes the pulled blob can arrive in. -/
inductive WireBlob where
  | buffer (data : Bytes)
  | str (s : String)
  | json (j : Json)

/-- The persisted client vault state: the stored vault blob and the
stored version marker (getVaultVersion returns 0 when absent, so the
marker is a number; the server marker is whatever number the API returns). -/
structure SyncLocalState where
  vault : Option Json
  version : Int

/-- The blob normalization inside pullFromRemote: a PostgreSQL Buffer is
turned into a string (String.fromCharCode) and JSON.parse-d, a string is
JSON.parse-d, anything else is stored as is.  A parse failure throws,
landing in the catch block. -/
def normalizeBlob : WireBlob → Option Json
  | .buffer data => jsonParse (String.mk (data.map Char.ofNat))
  | .str s => jsonParse s
  | .json j => some j

/-- Result value of pullFromRemote. -/
inductive PullOutcome where
  | updated (version : Int) (blob : Json)
  | upToDate (version : Int)
  | error (message : String)

/-- pullFromRemote from src/vault/sync.js, lines 30-65.  Returns the new
local state together with the outcome value. -/
def pullFromRemote (st : SyncLocalState) (serverBlob : WireBlob) (serverVersion : Int) :
    SyncLocalState × PullOutcome :=
  if st.version < serverVersion then
    match normalizeBlob serverBlob with
    | some blob => (⟨some blob, serverVersion⟩, .updated serverVersion blob)
    | none => (st, .error "JSON parse error")
  else (st, .upToDate st.version)

/-! ## Registration flow (LoginScreen: handleRegister / downloadRecoveryKey)

In the registration screen the user must press the recovery-key download
button before the register button is enabled.  downloadRecoveryKey calls
generateSalt() and builds the recovery key from that salt; handleRegister
later calls generateSalt() again and persists that second salt (setSalt) as
the account salt used to derive the master key and wrap the DEK.  The
random source is external; rng i is the 32-byte block returned by its
i-th generateSalt call. -/

/-- downloadRecoveryKey (LoginScreen, lines 119-148): a fresh salt from
generateSalt, then generateRecoveryKey(email, masterPassword, salt). -/
def downloadRecoveryKey (email masterPassword : String) (rngSalt : Bytes) : String :=
  generateRecoveryKey email masterPassword (generateSalt rngSalt)

/-- The salt handleRegister (LoginScreen, lines 70-117) generates and
persists with setSalt, deriving the master key from it. -/
def handleRegisterStoredSalt (rngSalt : Bytes) : Bytes := generateSalt rngSalt

/-- The two artifacts of the registration flow that involve a salt. -/
structure RegistrationArtifacts where
  recoveryKey : String
  storedSalt : Bytes

/-- The registration flow: the recovery key is generated from the random
source output consumed by downloadRecoveryKey (rng 0), the stored account
salt from the separate generateSalt call inside handleRegister (rng 1). -/
def registrationFlow (email masterPassword : String) (rng : Nat → Bytes) :
    RegistrationArtifacts :=
  ⟨downloadRecoveryKey email masterPassword (rng 0), handleRegisterStoredSalt (rng 1)⟩

/-! ## The claims -/

/-- C1: Envelope round-trip — for every 256-bit DEK and every KEK derived by
deriveKey from a (password, salt) pair with a 32-byte salt, decryptDEK
applied to the ciphertext-and-nonce pair produced by encryptDEK under the
same KEK returns key material equal to the original DEK bytes. -/
theorem c1_envelope_roundtrip (argonOk : Bool) (password : String) (salt : Bytes)
    (hsalt : salt.length = 32) (dekBytes iv : Bytes) (out : DeriveOutcome)
    (hderive : deriveKey argonOk password salt = .ok out) :
    decryptDEK (encryptDEK (generateDEK dekBytes) out.key iv).encryptedDEK
        (encryptDEK (generateDEK dekBytes) out.key iv).iv out.key =
      .ok (importAesGcmKey dekBytes) ∧
    (importAesGcmKey dekBytes).material = (generateDEK dekBytes).material := by
  constructor
  · unfold encryptDEK decryptDEK
    simp only []
    rw [aesGcmDecrypt_encrypt]
    rfl
  · rfl

/-- Witness for C1 at the registration-scenario fixture: 32-zero-byte salt
and a concrete password, DEK and nonce. -/
theorem c1_envelope_roundtrip_witness :
    decryptDEK (encryptDEK (generateDEK (List.replicate 32 7))
        ((⟨⟨.argon2id "CorrectHorseBattery9!" (List.replicate 32 0) 2 16384 1 32, "AES-GCM",
          256, true, ["encrypt", "decrypt", "wrapKey", "unwrapKey"]⟩, false, []⟩ :
          DeriveOutcome)).key (List.replicate 12 1)).encryptedDEK
        (encryptDEK (generateDEK (List.replicate 32 7))
        ((⟨⟨.argon2id "CorrectHorseBattery9!" (List.replicate 32 0) 2 16384 1 32, "AES-GCM",
          256, true, ["encrypt", "decrypt", "wrapKey", "unwrapKey"]⟩, false, []⟩ :
          DeriveOutcome)).key (List.replicate 12 1)).iv
        ((⟨⟨.argon2id "CorrectHorseBattery9!" (List.replicate 32 0) 2 16384 1 32, "AES-GCM",
          256, true, ["encrypt", "decrypt", "wrapKey", "unwrapKey"]⟩, false, []⟩ :
          DeriveOutcome)).key =
      .ok (importAesGcmKey (List.replicate 32 7)) ∧
    (importAesGcmKey (List.replicate 32 7)).material =
      (generateDEK (List.replicate 32 7)).material :=
  c1_envelope_roundtrip true "CorrectHorseBattery9!" (List.replicate 32 0) (by decide)
    (List.replicate 32 7) (List.replicate 12 1) _ rfl

/-- C2 counterexample: an email consisting of U+FEFF (the byte-order mark)
does not round trip — TextDecoder strips the leading BOM, so parsing
returns the empty email, not the original. -/
theorem c2_recovery_counterexample :
    parseRecoveryKey (generateRecoveryKey (String.mk [Char.ofNat 65279])
        (String.mk [Char.ofNat 120]) (List.replicate 32 0)) =
      .ok ⟨"", String.mk [Char.ofNat 120], List.replicate 32 0⟩ ∧
    ("" : String) ≠ String.mk [Char.ofNat 65279] := by
  constructor
  · rw [parseRecoveryKey_generateRecoveryKey_core _ _ _ (by decide) (by decide) (by decide),
      textDecode_utf8Encode (String.mk [Char.ofNat 120]) (by decide)]
    have hbom : textDecode (utf8Encode (String.mk [Char.ofNat 65279])) = "" := by
      rw [show utf8Encode (String.mk [Char.ofNat 65279]) = [239, 187, 191] from rfl,
        textDecode, show stripBOM [239, 187, 191] = [] from rfl, utf8Decode_nil]
    rw [hbom]
  · decide

/-- C2 (amended): the recovery-key round trip holds for every email and
password that do not begin with U+FEFF (whose leading UTF-8 byte-order mark
the platform TextDecoder would strip), every 32-byte salt, and email byte
length representable in 16 bits. -/
theorem c2_recovery_roundtrip (email password : String) (salt : Bytes)
    (hsv : ValidBytes salt) (hs32 : salt.length = 32)
    (hel : (utf8Encode email).length < 65536)
    (hbe : email.data.head? ≠ some (Char.ofNat 65279))
    (hbp : password.data.head? ≠ some (Char.ofNat 65279)) :
    parseRecoveryKey (generateRecoveryKey email password salt) =
      .ok ⟨email, password, salt⟩ :=
  parseRecoveryKey_generateRecoveryKey email password salt hsv hs32 hel hbe hbp

/-- Witness for C2 with a non-ASCII email (one accented character). -/
theorem c2_recovery_roundtrip_witness :
    parseRecoveryKey (generateRecoveryKey (String.mk [Char.ofNat 233])
        (String.mk [Char.ofNat 112]) (List.replicate 32 5)) =
      .ok ⟨String.mk [Char.ofNat 233], String.mk [Char.ofNat 112], List.replicate 32 5⟩ :=
  c2_recovery_roundtrip (String.mk [Char.ofNat 233]) (String.mk [Char.ofNat 112])
    (List.replicate 32 5) (by decide) (by decide) (by decide) (by decide) (by decide)

/-- C3: Wrong-key rejection — decryptDEK under a KEK derived (by the same
derivation path) from a different password or different salt fails with the
authentication error, never returning other key material. -/
theorem c3_wrong_key_rejection (argonOk : Bool) (p1 p2 : String) (s1 s2 : Bytes)
    (hdiff : p1 ≠ p2 ∨ s1 ≠ s2) (dekBytes iv : Bytes) (o1 o2 : DeriveOutcome)
    (h1 : deriveKey argonOk p1 s1 = .ok o1) (h2 : deriveKey argonOk p2 s2 = .ok o2) :
    decryptDEK (encryptDEK (generateDEK dekBytes) o1.key iv).encryptedDEK iv o2.key =
      .error .tagMismatch := by
  have hne : o1.key.material ≠ o2.key.material := by
    cases argonOk with
    | true =>
      rw [deriveKey, if_pos rfl] at h1
      rw [deriveKey, if_pos rfl] at h2
      injection h1 with h1e
      injection h2 with h2e
      subst h1e
      subst h2e
      intro heq
      have heq' : KeyMaterial.argon2id p1 s1 2 16384 1 32 =
          KeyMaterial.argon2id p2 s2 2 16384 1 32 := heq
      injection heq' with a b
      rcases hdiff with hd | hd
      · exact hd a
      · exact hd b
    | false =>
      rw [deriveKey, if_neg (by simp)] at h1
      rw [deriveKey, if_neg (by simp)] at h2
      injection h1 with h1e
      injection h2 with h2e
      subst h1e
      subst h2e
      intro heq
      have heq' : KeyMaterial.pbkdf2 p1 s1 600000 "SHA-256" 256 =
          KeyMaterial.pbkdf2 p2 s2 600000 "SHA-256" 256 := heq
      injection heq' with a b
      rcases hdiff with hd | hd
      · exact hd a
      · exact hd b
  unfold encryptDEK decryptDEK
  simp only []
  rw [aesGcmDecrypt_wrong_key _ _ _ _ _ hne]

/-- Witness for C3: two different passwords over the same salt. -/
theorem c3_wrong_key_rejection_witness :
    decryptDEK (encryptDEK (generateDEK (List.replicate 32 7))
        ((⟨⟨.argon2id "a" (List.replicate 32 0) 2 16384 1 32, "AES-GCM", 256, true,
          ["encrypt", "decrypt", "wrapKey", "unwrapKey"]⟩, false, []⟩ : DeriveOutcome)).key
        (List.replicate 12 1)).encryptedDEK (List.replicate 12 1)
        ((⟨⟨.argon2id "b" (List.replicate 32 0) 2 16384 1 32, "AES-GCM", 256, true,
          ["encrypt", "decrypt", "wrapKey", "unwrapKey"]⟩, false, []⟩ : DeriveOutcome)).key =
      .error .tagMismatch :=
  c3_wrong_key_rejection true "a" "b" (List.replicate 32 0) (List.replicate 32 0)
    (Or.inl (by decide)) (List.replicate 32 7) (List.replicate 12 1) _ _ rfl rfl

/-- C4 counterexample: deriveKey succeeds (returns a key, raising no
DerivationError) on an empty password with a 32-byte salt and on a
nonempty password with a 16-byte salt, on both derivation paths. -/
theorem c4_no_validation_counterexample :
    deriveKey true "" (List.replicate 32 0) =
      .ok ⟨⟨.argon2id "" (List.replicate 32 0) 2 16384 1 32, "AES-GCM", 256, true,
        ["encrypt", "decrypt", "wrapKey", "unwrapKey"]⟩, false, []⟩ ∧
    deriveKey false "" (List.replicate 32 0) =
      .ok ⟨⟨.pbkdf2 "" (List.replicate 32 0) 600000 "SHA-256" 256, "AES-GCM", 256, true,
        ["encrypt", "decrypt", "wrapKey", "unwrapKey"]⟩, true, [fallbackWarning]⟩ ∧
    deriveKey true "password" (List.replicate 16 0) =
      .ok ⟨⟨.argon2id "password" (List.replicate 16 0) 2 16384 1 32, "AES-GCM", 256, true,
        ["encrypt", "decrypt", "wrapKey", "unwrapKey"]⟩, false, []⟩ ∧
    deriveKey false "password" (List.replicate 16 0) =
      .ok ⟨⟨.pbkdf2 "password" (List.replicate 16 0) 600000 "SHA-256" 256, "AES-GCM", 256, true,
        ["encrypt", "decrypt", "wrapKey", "unwrapKey"]⟩, true, [fallbackWarning]⟩ :=
  ⟨rfl, rfl, rfl, rfl⟩

/-- C4 (amended): deriveKey performs no input validation at all — for every
input, including an empty password or a salt of any length, it returns a
derived key and never a DerivationError. -/
theorem c4_no_derivation_error (argonOk : Bool) (password : String) (salt : Bytes)
    (e : DerivationError) : deriveKey argonOk password salt ≠ .error e := by
  intro h
  cases argonOk <;> (unfold deriveKey at h; simp at h)

/-- C5 counterexample: the token AAA= decodes to the two bytes 00 00 (fewer
than 34, with the email length not exceeding the buffer only by clamping),
yet parseRecoveryKey succeeds with clamped garbage (2-byte salt) instead of
failing with the malformed-recovery-key error. -/
theorem c5_malformed_counterexample :
    parseRecoveryKey (String.mk [Char.ofNat 65, Char.ofNat 65, Char.ofNat 65, Char.ofNat 61]) =
      .ok ⟨"", "", [0, 0]⟩ := by
  unfold parseRecoveryKey
  rw [string_data_mk,
    show atob [Char.ofNat 65, Char.ofNat 65, Char.ofNat 65, Char.ofNat 61] = some [0, 0]
      from rfl]
  simp only []
  have hdec : textDecode [] = "" := by
    rw [textDecode, show stripBOM ([] : Bytes) = [] from rfl, utf8Decode_nil]
  norm_num [jsSlice, jsIndex, hdec]
  exact ⟨hdec, hdec, rfl⟩

/-- C5 (amended): parseRecoveryKey fails with its single malformed error
exactly when base64 decoding fails or the decoded buffer holds fewer than
2 bytes (the DataView read throws); any token whose decoded form has at
least 2 bytes — however short — parses successfully with clamped slices. -/
theorem c5_parse_failure_conditions (token : String) :
    (atob token.data = none → parseRecoveryKey token = .error .invalidFormat) ∧
    (∀ bs, atob token.data = some bs → bs.length < 2 →
      parseRecoveryKey token = .error .invalidFormat) ∧
    (∀ bs b0 b1 t, atob token.data = some bs → bs = b0 :: b1 :: t →
      parseRecoveryKey token =
        .ok ⟨textDecode (jsSlice bs 2 (2 + ((b0 * 256 + b1 : Nat) : Int))),
          textDecode (jsSlice bs (2 + ((b0 * 256 + b1 : Nat) : Int)) ((bs.length : Int) - 32)),
          jsSlice bs ((bs.length : Int) - 32) (bs.length : Int)⟩) := by
  refine ⟨?_, ?_, ?_⟩
  · intro h
    unfold parseRecoveryKey
    rw [h]
  · intro bs h hlen
    unfold parseRecoveryKey
    rw [h]
    cases bs with
    | nil => rfl
    | cons b0 t =>
      cases t with
      | nil => rfl
      | cons b1 t2 =>
        simp only [List.length_cons] at hlen
        omega
  · intro bs b0 b1 t h hshape
    unfold parseRecoveryKey
    rw [h, hshape]

/-- Witness for C5: an invalid base64 token fails with the malformed error. -/
theorem c5_parse_failure_conditions_witness :
    parseRecoveryKey (String.mk [Char.ofNat 33, Char.ofNat 33, Char.ofNat 33]) =
      .error .invalidFormat :=
  (c5_parse_failure_conditions
    (String.mk [Char.ofNat 33, Char.ofNat 33, Char.ofNat 33])).1 (by decide)

/-- C6 counterexample: a ciphertext whose plaintext is not JSON (decrypted
with the right key, so AEAD verification succeeds) fails with exactly the
same error value as decryption under a wrong key — the two failure kinds
are not distinguishable, and no distinct MalformedVaultError exists. -/
theorem c6_error_taxonomy_counterexample :
    decryptVault (aesGcmEncrypt (.raw (List.replicate 32 7)) (List.replicate 12 1)
        (utf8Encode (String.mk [Char.ofNat 104, Char.ofNat 105]))) (List.replicate 12 1)
        (importAesGcmKey (List.replicate 32 7)) = .error .failedToDecrypt ∧
    decryptVault (aesGcmEncrypt (.raw (List.replicate 32 7)) (List.replicate 12 1)
        (utf8Encode (String.mk [Char.ofNat 104, Char.ofNat 105]))) (List.replicate 12 1)
        (importAesGcmKey (List.replicate 32 8)) = .error .failedToDecrypt := by
  constructor
  · unfold decryptVault
    rw [show (importAesGcmKey (List.replicate 32 7)).material =
        KeyMaterial.raw (List.replicate 32 7) from rfl,
      aesGcmDecrypt_encrypt]
    simp only []
    rw [textDecode_utf8Encode _ (by decide)]
    have hjp : jsonParse (String.mk [Char.ofNat 104, Char.ofNat 105]) = none := by
      unfold jsonParse
      rw [string_data_mk,
        show ([Char.ofNat 104, Char.ofNat 105] : List Char).length + 1 = 2 + 1 from rfl,
        parseValue, if_neg (by decide), if_neg (by decide), if_neg (by decide),
        if_neg (by decide), if_neg (by decide), if_neg (by decide), if_neg (by decide)]
    rw [hjp]
  · unfold decryptVault
    rw [show (importAesGcmKey (List.replicate 32 8)).material =
        KeyMaterial.raw (List.replicate 32 8) from rfl,
      aesGcmDecrypt_wrong_key _ _ _ _ _ (by decide)]

/-- C6 (amended): decryptVault reports every failure — AEAD tag mismatch
and post-decryption JSON parse failure alike — as the one failedToDecrypt
error with the single wrong-password-or-corrupted-data message; the caller
cannot distinguish the two causes. -/
theorem c6_single_error_kind (ev : GCMCiphertext) (iv : Bytes) (dek : CryptoKey) :
    (aesGcmDecrypt dek.material iv ev = none →
      decryptVault ev iv dek = .error .failedToDecrypt) ∧
    (∀ bytes, aesGcmDecrypt dek.material iv ev = some bytes →
      jsonParse (textDecode bytes) = none →
      decryptVault ev iv dek = .error .failedToDecrypt) ∧
    (∀ e, decryptVault ev iv dek = .error e →
      VaultError.message e = "Failed to decrypt vault. Wrong password or corrupted data.") := by
  refine ⟨?_, ?_, ?_⟩
  · intro h
    unfold decryptVault
    rw [h]
  · intro bytes h hp
    unfold decryptVault
    rw [h]
    simp only []
    rw [hp]
  · intro e _
    cases e
    rfl

/-- Witness for C6 at a concrete wrong-key decryption. -/
theorem c6_single_error_kind_witness :
    decryptVault (aesGcmEncrypt (.raw (List.replicate 32 7)) (List.replicate 12 1)
        (utf8Encode (String.mk [Char.ofNat 104, Char.ofNat 105]))) (List.replicate 12 1)
        (importAesGcmKey (List.replicate 32 8)) = .error .failedToDecrypt :=
  (c6_single_error_kind (aesGcmEncrypt (.raw (List.replicate 32 7)) (List.replicate 12 1)
    (utf8Encode (String.mk [Char.ofNat 104, Char.ofNat 105]))) (List.replicate 12 1)
    (importAesGcmKey (List.replicate 32 8))).1 (by decide)

/-- C7: Vault round-trip — decryptVault inverts encryptVault under the same
DEK for every record collection (including the empty one), field for field
and in order; timestamps are bounded by 10^21 since JS switches to
exponential notation beyond that. -/
theorem c7_vault_roundtrip (rs : List VaultRecord) (dekBytes iv : Bytes)
    (hts : ∀ r ∈ rs, r.createdAt < 10 ^ 21) :
    decryptVault (encryptVault (recordsJson rs) (generateDEK dekBytes) iv).encryptedVault iv
        (generateDEK dekBytes) = .ok (recordsJson rs) ∧
    recordsOfJson (recordsJson rs) = some rs :=
  ⟨decryptVault_encryptVault (recordsJson rs) (generateDEK dekBytes) iv,
    recordsOfJson_recordsJson rs⟩

/-- Witness for C7 at the one-record scenario of the spec. -/
theorem c7_vault_roundtrip_witness :
    decryptVault (encryptVault (recordsJson [⟨"1", "Example", "user@example.com", "p@ss",
        "https://example.com", "", 1700000000⟩]) (generateDEK (List.replicate 32 7))
        (List.replicate 12 1)).encryptedVault (List.replicate 12 1)
        (generateDEK (List.replicate 32 7)) =
      .ok (recordsJson [⟨"1", "Example", "user@example.com", "p@ss",
        "https://example.com", "", 1700000000⟩]) ∧
    recordsOfJson (recordsJson [⟨"1", "Example", "user@example.com", "p@ss",
        "https://example.com", "", 1700000000⟩]) =
      some [⟨"1", "Example", "user@example.com", "p@ss", "https://example.com", "",
        1700000000⟩] :=
  c7_vault_roundtrip [⟨"1", "Example", "user@example.com", "p@ss", "https://example.com", "",
    1700000000⟩] (List.replicate 32 7) (List.replicate 12 1)
    (by intro r hr; simp at hr; rw [hr]; norm_num)

/-- C8: Pull-side sync marker monotonicity and verbatim adoption — the
stored marker never decreases; on a strictly newer server marker the local
state becomes exactly the normalized server blob with the server marker
verbatim; otherwise blob and marker are unchanged. -/
theorem c8_pull_monotonic (st : SyncLocalState) (serverBlob : WireBlob) (serverVersion : Int) :
    st.version ≤ (pullFromRemote st serverBlob serverVersion).1.version ∧
    (st.version < serverVersion →
      ∀ blob, normalizeBlob serverBlob = some blob →
        (pullFromRemote st serverBlob serverVersion).1 = ⟨some blob, serverVersion⟩) ∧
    (¬ st.version < serverVersion →
      (pullFromRemote st serverBlob serverVersion).1 = st) := by
  unfold pullFromRemote
  by_cases h : st.version < serverVersion
  · rw [if_pos h]
    rcases hn : normalizeBlob serverBlob with _ | b
    · exact ⟨le_refl _, fun _ blob hb => Option.noConfusion hb, fun hc => absurd h hc⟩
    · refine ⟨le_of_lt h, fun _ blob hb => ?_, fun hc => absurd h hc⟩
      injection hb with hbb
      rw [hbb]
  · rw [if_neg h]
    exact ⟨le_refl _, fun hc => absurd hc h, fun _ => rfl⟩

/-- Witness for C8 at the sync-ordering scenario: local marker 5, server
marker 7 — the client adopts blob and marker 7 verbatim. -/
theorem c8_pull_monotonic_witness :
    (pullFromRemote ⟨none, 5⟩ (.json (Json.arr [])) 7).1 =
      ⟨some (Json.arr []), 7⟩ :=
  (c8_pull_monotonic ⟨none, 5⟩ (.json (Json.arr [])) 7).2.1 (by norm_num) (Json.arr []) rfl

/-- C9: Derivation fallback — when the Argon2id path fails at runtime,
deriveKey derives with PBKDF2 at 600000 iterations over SHA-256 and still
returns a 256-bit AES-GCM key, emitting the console warning; the fallback
runs exactly when the primary path fails, and it is never silent. -/
theorem c9_fallback_pbkdf2 (password : String) (salt : Bytes) :
    deriveKey false password salt =
      .ok ⟨⟨.pbkdf2 password salt 600000 "SHA-256" 256, "AES-GCM", 256, true,
        ["encrypt", "decrypt", "wrapKey", "unwrapKey"]⟩, true, [fallbackWarning]⟩ ∧
    (∀ argonOk out, deriveKey argonOk password salt = .ok out →
      (out.usedFallback = true ↔ argonOk = false) ∧
      (out.usedFallback = true → out.warnings ≠ [])) := by
  constructor
  · rfl
  · intro argonOk out hout
    cases argonOk with
    | true =>
      rw [deriveKey, if_pos rfl] at hout
      injection hout with he
      subst he
      exact ⟨by simp, by simp⟩
    | false =>
      rw [deriveKey, if_neg (by simp)] at hout
      injection hout with he
      subst he
      exact ⟨by simp, by simp⟩

/-- Witness for C9 at a concrete password and salt. -/
theorem c9_fallback_pbkdf2_witness :
    deriveKey false "pw" (List.replicate 32 0) =
      .ok ⟨⟨.pbkdf2 "pw" (List.replicate 32 0) 600000 "SHA-256" 256, "AES-GCM", 256, true,
        ["encrypt", "decrypt", "wrapKey", "unwrapKey"]⟩, true, [fallbackWarning]⟩ :=
  (c9_fallback_pbkdf2 "pw" (List.replicate 32 0)).1

/-- C10: Registration recovery-key salt independence — the salt inside the
recovery key comes from the generateSalt call in downloadRecoveryKey, the
persisted account salt from the separate generateSalt call in
handleRegister; whenever the random source yields different values for the
two calls, the parsed-back salt differs from the stored salt. -/
theorem c10_salt_independence (email masterPassword : String) (rng : Nat → Bytes)
    (hv : ValidBytes (rng 0)) (h32 : (rng 0).length = 32)
    (hel : (utf8Encode email).length < 65536)
    (hbe : email.data.head? ≠ some (Char.ofNat 65279))
    (hbp : masterPassword.data.head? ≠ some (Char.ofNat 65279))
    (hdiff : rng 0 ≠ rng 1) :
    parseRecoveryKey (registrationFlow email masterPassword rng).recoveryKey =
      .ok ⟨email, masterPassword, rng 0⟩ ∧
    (registrationFlow email masterPassword rng).storedSalt = rng 1 ∧
    rng 0 ≠ (registrationFlow email masterPassword rng).storedSalt := by
  refine ⟨?_, rfl, ?_⟩
  · exact parseRecoveryKey_generateRecoveryKey email masterPassword (rng 0) hv h32 hel hbe hbp
  · exact hdiff

/-- Witness for C10 with a random source returning 32 zero bytes then 32
one bytes. -/
theorem c10_salt_independence_witness :
    parseRecoveryKey (registrationFlow (String.mk [Char.ofNat 101])
        (String.mk [Char.ofNat 112]) (fun n => List.replicate 32 n)).recoveryKey =
      .ok ⟨String.mk [Char.ofNat 101], String.mk [Char.ofNat 112], List.replicate 32 0⟩ ∧
    (registrationFlow (String.mk [Char.ofNat 101]) (String.mk [Char.ofNat 112])
        (fun n => List.replicate 32 n)).storedSalt = List.replicate 32 1 ∧
    List.replicate 32 0 ≠ (registrationFlow (String.mk [Char.ofNat 101])
        (String.mk [Char.ofNat 112]) (fun n => List.replicate 32 n)).storedSalt :=
  c10_salt_independence (String.mk [Char.ofNat 101]) (String.mk [Char.ofNat 112])
    (fun n => List.replicate 32 n) (by decide) (by decide) (by decide) (by decide) (by decide)
    (by decide)

end PassVault
